import Mathlib

/-
Verification development for the workshop registration/reminder script
(src/index.py).

Modelling conventions (shallow embedding):

* Instants are natural numbers counting minutes in the fixed workshop time
  zone (Asia/Kolkata, which has no DST), measured from an epoch that falls on
  a Monday at 00:00.  Thus `t / 1440` is the calendar date (a day index),
  `t % 1440` the minute of the day, and `(t / 1440) % 7` is Python's
  `datetime.weekday()` (Monday = 0, ..., Sunday = 6).
* Calendar dates (the `"%Y-%m-%d"` strings stored in the tracking files) are
  modelled as day indices (`t / 1440`).
* A reminder key `f"{date}_{hour}"` is modelled as the pair `(date, hour)`.
* Python dicts are modelled as association lists with shadowing: an update
  prepends a binding, lookup returns the first binding of a key.  Lookup and
  membership behave exactly like the dict's.
* The SMTP channel is external; its outcomes are an oracle `ℕ → Bool`
  consulted once per send attempt, in program order, within one tick.
* A tick additionally returns the list of *successful* sends it performed
  (the recipient together with the kind of email), so that claims counting
  sends can be stated.  Only successful sends mutate persistent state in the
  source, and only those are counted by the claims.
-/

namespace Workshop

/-! ### Time helpers -/

/-- Calendar date (day index) of an instant, i.e. Python's `.date()`. -/
def dateOf (t : ℕ) : ℕ := t / 1440

/-- Hour of the day of an instant, i.e. Python's `.hour`. -/
def hourOf (t : ℕ) : ℕ := t % 1440 / 60

/-- Weekday of an instant, Python convention: Monday = 0, ..., Sunday = 6.
The epoch (day 0) is a Monday. -/
def weekdayOf (t : ℕ) : ℕ := t / 1440 % 7

/-- WORKSHOP_DAYS = {1, 4, 6}: Tuesday, Friday, Sunday (src/index.py line 68). -/
def WORKSHOP_DAYS : List ℕ := [1, 4, 6]

/-- Python's `candidate_day.replace(hour=20, minute=0, second=0, microsecond=0)`:
the same calendar day at 20:00. -/
def replaceHour20 (t : ℕ) : ℕ := t / 1440 * 1440 + 20 * 60

/-! ### Occurrence generator (`get_next_workshop_datetimes`, lines 81-97)

The Python `while` loop has no bound; `gnwAux` mirrors its body with an
explicit fuel argument, and we prove below that any fuel of at least
`7 * count + 1` yields the same, complete result — which is exactly the
termination argument for the unbounded source loop. -/

/-- One-to-one image of the `while len(next_workshops) < count` loop of
`get_next_workshop_datetimes`: `d` is `day_offset`, `r` is the number of
occurrences still to be produced, and one unit of fuel is one iteration. -/
def gnwAux (from_dt : ℕ) : ℕ → ℕ → ℕ → List ℕ
  | _, _, 0 => []
  | 0, _, _ + 1 => []
  | fuel + 1, d, r + 1 =>
    let candidate_day := from_dt + d * 1440
    let workshop_start := replaceHour20 candidate_day
    if weekdayOf candidate_day ∈ WORKSHOP_DAYS ∧ from_dt < workshop_start then
      workshop_start :: gnwAux from_dt fuel (d + 1) r
    else
      gnwAux from_dt fuel (d + 1) (r + 1)

/-- The next `count` workshop start instants strictly after `from_dt`
(src/index.py lines 81-97).  The fuel `7 * count + 7` is proved sufficient
and irrelevant (`gnw_eq_gnwAux` below): the source loop terminates with
this very result. -/
def get_next_workshop_datetimes (from_dt : ℕ) (count : ℕ) : List ℕ :=
  gnwAux from_dt (7 * count + 7) 0 count

/-! ### Engine data model (persisted tracking state, lines 37-59) -/

/-- Kind of a successful send: the one-time registration confirmation, or a
reminder under ReminderKey `(occurrence date, trigger hour)`. -/
inductive SendKind where
  | registration : SendKind
  | reminder : ℕ → ℕ → SendKind
  deriving DecidableEq

/-- A successful send: recipient email together with the kind of email. -/
abbrev Event := String × SendKind

/-- The persisted engine state: `processed_emails` (the registered set),
`reminder_sent` (email → list of ReminderKeys) and `workshop_tracking`
(email → personal queue of upcoming workshop dates). -/
structure EngineState where
  processed_emails : List String
  reminder_sent : List (String × List (ℕ × ℕ))
  workshop_tracking : List (String × List ℕ)
  deriving DecidableEq

/-- Dict lookup with default `[]`, i.e. Python's `d.get(k, [])` (and `d[k]`
whenever the key is present). -/
def dictGet {α : Type} : List (String × List α) → String → List α
  | [], _ => []
  | p :: rest, k => if p.1 = k then p.2 else dictGet rest k

/-- Dict key membership, i.e. Python's `k in d`. -/
def memKey {α : Type} (m : List (String × List α)) (k : String) : Bool :=
  m.any (fun p => p.1 == k)

/-- Dict update `d[k] = v`, modelled by prepending a shadowing binding: the
observable behaviour through `dictGet` and `memKey` is the dict's. -/
def dictSet {α : Type} (m : List (String × List α)) (k : String) (v : List α) :
    List (String × List α) :=
  (k, v) :: m

/-- Python's `str.strip()`: leading and trailing whitespace removed.  It is
defined over the character list so that it is kernel-computable
(`String.trim` itself is not); it agrees with `.strip()` on every string. -/
def pyStrip (s : String) : String :=
  String.mk (((s.data.dropWhile Char.isWhitespace).reverse.dropWhile
    Char.isWhitespace).reverse)

/-- Python's `str.upper()`, restricted to the ASCII case mapping (which is
what `Char.toUpper` provides and what the sheet's name column uses). -/
def pyUpper (s : String) : String := String.mk (s.data.map Char.toUpper)

/-- Image of `send_email` (src/index.py lines 99-125): one message is composed
and one SMTP attempt is made; the boolean outcome of that single attempt is
returned (an exception is caught and yields `False`).  The attempt consumes
one position of the channel oracle.  There is no retry loop in the source. -/
def send_email (oracle : ℕ → Bool) (attempt : ℕ) : Bool × ℕ :=
  (oracle attempt, attempt + 1)

/-- Modelled from the spec: the retry policy the specification describes for
send failures — a bounded number of synchronous attempts (3 observed) with a
fixed delay between them, succeeding as soon as one attempt succeeds.  This
definition follows the spec's words, for comparison with `send_email` above,
which the source actually implements. -/
def send_email_spec_retry (oracle : ℕ → Bool) (attempt : ℕ) : ℕ → Bool
  | 0 => false
  | tries + 1 => if oracle attempt then true else send_email_spec_retry oracle (attempt + 1) tries

/-- Image of `is_within_tolerance` (lines 136-140): the distance in minutes
between `now` and today at `target_hour:00` is at most the tolerance. -/
def is_within_tolerance (now target_hour : ℕ) (minutes_tolerance : ℕ := 10) : Bool :=
  decide (((now : ℤ) - ((now / 1440 * 1440 + target_hour * 60 : ℕ) : ℤ)).natAbs
    ≤ minutes_tolerance)

/-- Image of `cleanup_old_workshops` (lines 144-154): every tracked queue
keeps exactly the dates on or after `today`; dates strictly before `today`
are dropped.  (The `changed` flag in the source only decides whether the file
is rewritten; the resulting mapping is the same.) -/
def cleanup_old_workshops (today : ℕ)
    (tracking : List (String × List ℕ)) : List (String × List ℕ) :=
  tracking.map (fun p => (p.1, p.2.filter (fun d => today ≤ d)))

/-- The date appended by one iteration of the top-up loop (lines 257-261):
the stored last date is parsed, one day is added, and the generator is asked
for one occurrence; only its calendar date is stored. -/
def next_date_after (last : ℕ) : ℕ :=
  dateOf ((get_next_workshop_datetimes ((last + 1) * 1440) 1).headD 0)

/-- Image of the `while len(workshop_tracking[email]) < 3` top-up loop
(lines 257-261).  The loop appends one date per iteration, so it runs at
most 3 times and 3 units of fuel are exact.  On an empty queue the source
raises an IndexError reading `[-1]`; the model instead leaves the queue
unchanged in that case (such a state only arises when a pop empties a queue
that did not hold the usual three dates). -/
def topUpAux : ℕ → List ℕ → List ℕ
  | 0, lst => lst
  | fuel + 1, lst =>
    if lst.length < 3 then
      match lst.getLast? with
      | none => lst
      | some last => topUpAux fuel (lst ++ [next_date_after last])
    else lst

/-- Accumulator of the slot loop: the recipient's reminder list (Python's
`reminders_for_email`), the whole `reminder_sent` dict, the attempt counter
and the successful sends so far. -/
structure SlotAcc where
  reminders : List (ℕ × ℕ)
  rs : List (String × List (ℕ × ℕ))
  attempt : ℕ
  events : List Event

/-- One iteration of the reminder-slot loop (lines 221-249) for trigger hour
`hour`: inside the tolerance window, a reminder not yet recorded under the
key `(d0, hour)` is attempted; on a confirmed send the key is appended to
the recipient's list and `reminder_sent[email]` is reassigned. -/
def processSlot (now : ℕ) (oracle : ℕ → Bool) (email : String) (d0 : ℕ)
    (acc : SlotAcc) (hour : ℕ) : SlotAcc :=
  if is_within_tolerance now hour then
    if (d0, hour) ∈ acc.reminders then acc
    else
      let r := send_email oracle acc.attempt
      if r.1 then
        { reminders := acc.reminders ++ [(d0, hour)],
          rs := dictSet acc.rs email (acc.reminders ++ [(d0, hour)]),
          attempt := r.2,
          events := acc.events ++ [(email, SendKind.reminder d0 hour)] }
      else { acc with attempt := r.2 }
  else acc

/-- Accumulator of the main per-row loop. -/
structure TickAcc where
  st : EngineState
  attempt : ℕ
  events : List Event

/-- Registration decision (lines 183-209): an address not yet in
`processed_emails` gets one confirmation attempt; only a confirmed send
marks it processed. -/
def regStep (oracle : ℕ → Bool) (email : String) (acc : TickAcc) : TickAcc :=
  if email ∈ acc.st.processed_emails then acc
  else
    let r := send_email oracle acc.attempt
    if r.1 then
      { st := { acc.st with processed_emails := email :: acc.st.processed_emails },
        attempt := r.2,
        events := acc.events ++ [(email, SendKind.registration)] }
    else { acc with attempt := r.2 }

/-- Reminder slot phase (lines 217-249): when `now` falls on the recipient's
first queued workshop date, run the three reminder slots. -/
def remSlots (now : ℕ) (oracle : ℕ → Bool) (email : String) (d0 : ℕ)
    (acc : TickAcc) : TickAcc :=
  if dateOf now = d0 then
    let s0 : SlotAcc :=
      { reminders := dictGet acc.st.reminder_sent email,
        rs := acc.st.reminder_sent, attempt := acc.attempt, events := acc.events }
    let s1 := [10, 19, 20].foldl (processSlot now oracle email d0) s0
    { st := { acc.st with reminder_sent := s1.rs },
      attempt := s1.attempt, events := s1.events }
  else acc

/-- Queue maintenance (lines 251-261): after 22:00 on the workshop day the
date is popped, and the queue is then topped back up to three dates. -/
def remTail (now : ℕ) (email : String) (d0 : ℕ) (rest : List ℕ)
    (acc : TickAcc) : TickAcc :=
  let acc2 :=
    if dateOf now = d0 ∧ 22 ≤ hourOf now then
      let tr := dictSet acc.st.workshop_tracking email rest
      { acc with st := { acc.st with workshop_tracking := tr } }
    else acc
  let tr2 := dictSet acc2.st.workshop_tracking email
    (topUpAux 3 (dictGet acc2.st.workshop_tracking email))
  { acc2 with st := { acc2.st with workshop_tracking := tr2 } }

/-- Reminder phase for one recipient (lines 211-261): only the first queued
workshop date is considered; an empty queue skips the whole phase. -/
def remPhase (now : ℕ) (oracle : ℕ → Bool) (email : String) (acc : TickAcc) : TickAcc :=
  match dictGet acc.st.workshop_tracking email with
  | [] => acc
  | d0 :: rest => remTail now email d0 rest (remSlots now oracle email d0 acc)

/-- First-contact assignment (lines 177-180): an address not yet tracked is
assigned the next three upcoming workshop dates. -/
def assignStep (now : ℕ) (email : String) (acc : TickAcc) : TickAcc :=
  if memKey acc.st.workshop_tracking email then acc
  else
    let tr := dictSet acc.st.workshop_tracking email
      ((get_next_workshop_datetimes now 3).map dateOf)
    { acc with st := { acc.st with workshop_tracking := tr } }

/-- Processing of one sheet row inside the main loop (lines 167-261): extract
name (column 1, stripped and upper-cased) and email (column 2, stripped),
skip blank rows, assign three upcoming dates to a new address, then run the
registration decision and the reminder phase. -/
def processRow (now : ℕ) (oracle : ℕ → Bool) (acc : TickAcc) (row : List String) :
    TickAcc :=
  match row.get? 1, row.get? 2 with
  | some n, some e0 =>
    let name := pyUpper (pyStrip n)
    let email := pyStrip e0
    if email = "" ∨ name = "" then acc
    else remPhase now oracle email (regStep oracle email (assignStep now email acc))
  | _, _ => acc

/-- One run of `main()` (lines 160-261) at instant `now`: cleanup of past
dates, then one pass over the sheet rows (the header row is dropped).  The
spreadsheet read and all message formatting are external; the intermediate
file saves leave the in-memory state unchanged and are not modelled.
Returns the final state and the successful sends in order. -/
def tick (now : ℕ) (sheet : List (List String)) (oracle : ℕ → Bool)
    (s : EngineState) : EngineState × List Event :=
  let s0 : EngineState :=
    { s with workshop_tracking := cleanup_old_workshops (dateOf now) s.workshop_tracking }
  let acc := (sheet.drop 1).foldl (processRow now oracle)
    { st := s0, attempt := 0, events := [] }
  (acc.st, acc.events)

/-- Input of one tick: the current instant, the sheet contents including the
header row, and the SMTP channel's disposition for that tick. -/
structure TickInput where
  now : ℕ
  sheet : List (List String)
  oracle : ℕ → Bool

/-- A run of any number of successive ticks over the same persistent state,
collecting all successful sends in order. -/
def runTrace (s : EngineState) : List TickInput → EngineState × List Event
  | [] => (s, [])
  | t :: ts =>
    let r1 := tick t.now t.sheet t.oracle s
    let r2 := runTrace r1.1 ts
    (r2.1, r1.2 ++ r2.2)

/-! ### Counting successful sends -/

/-- Number of successful reminder sends for recipient `e` under ReminderKey
`(d, h)` in an event list. -/
def cntRem (e : String) (d h : ℕ) (evs : List Event) : ℕ :=
  evs.countP (fun ev => ev = (e, SendKind.reminder d h))

/-- Number of successful registration sends to recipient `e`. -/
def cntReg (e : String) (evs : List Event) : ℕ :=
  evs.countP (fun ev => ev = (e, SendKind.registration))

/-- Number of successful reminder sends to recipient `e`, over all keys. -/
def cntRemAll (e : String) (evs : List Event) : ℕ :=
  evs.countP (fun ev => match ev.2 with
    | SendKind.reminder _ _ => ev.1 == e
    | SendKind.registration => false)

/-- Number of successful reminder sends to recipient `e` for occurrence date
`d`, over all trigger hours. -/
def cntRemDate (e : String) (d : ℕ) (evs : List Event) : ℕ :=
  evs.countP (fun ev => match ev.2 with
    | SendKind.reminder d' _ => ev.1 == e && d' == d
    | SendKind.registration => false)

/-- Membership indicator of a ReminderKey in a recipient's recorded list. -/
def indRS (rs : List (String × List (ℕ × ℕ))) (e : String) (k : ℕ × ℕ) : ℕ :=
  if k ∈ dictGet rs e then 1 else 0

/-- Membership indicator in the registered set. -/
def indMem (l : List String) (e : String) : ℕ := if e ∈ l then 1 else 0

/-- Statement that every reminder event in a list fires at one of the three
configured slot hours (10:00, 19:00, 20:00). -/
def HoursOk (evs : List Event) : Prop :=
  ∀ ev ∈ evs, ∀ d h, ev.2 = SendKind.reminder d h → h = 10 ∨ h = 19 ∨ h = 20

/-! ### Properties of the occurrence generator -/

lemma gnwAux_zero_r (from_dt fuel d : ℕ) : gnwAux from_dt fuel d 0 = [] := by
  cases fuel <;> rfl

lemma gnwAux_zero_fuel (from_dt d r : ℕ) : gnwAux from_dt 0 d r = [] := by
  cases r <;> rfl

lemma gnwAux_succ (from_dt f d r : ℕ) :
    gnwAux from_dt (f + 1) d (r + 1) =
      if weekdayOf (from_dt + d * 1440) ∈ WORKSHOP_DAYS ∧
          from_dt < replaceHour20 (from_dt + d * 1440) then
        replaceHour20 (from_dt + d * 1440) :: gnwAux from_dt f (d + 1) r
      else gnwAux from_dt f (d + 1) (r + 1) := by
  rfl

/-- For a day offset of at least one, the candidate's 20:00 instant is
strictly after the reference instant. -/
lemma replaceHour20_gt (from_dt d : ℕ) (hd : 1 ≤ d) :
    from_dt < replaceHour20 (from_dt + d * 1440) := by
  unfold replaceHour20
  omega

/-- Nonemptiness of the weekday set: within every window of 7 consecutive
day offsets there is a day whose weekday is a workshop day. -/
lemma exists_workshop_day (from_dt d : ℕ) :
    ∃ j, j ≤ 6 ∧ weekdayOf (from_dt + (d + j) * 1440) ∈ WORKSHOP_DAYS := by
  refine ⟨(8 - (from_dt / 1440 + d) % 7) % 7, by omega, ?_⟩
  have h : weekdayOf (from_dt + (d + (8 - (from_dt / 1440 + d) % 7) % 7) * 1440)
      = (from_dt / 1440 + d + (8 - (from_dt / 1440 + d) % 7) % 7) % 7 := by
    unfold weekdayOf
    omega
  rw [h]
  have h2 : (from_dt / 1440 + d + (8 - (from_dt / 1440 + d) % 7) % 7) % 7 = 1 := by
    omega
  rw [h2]
  simp [WORKSHOP_DAYS]

/-- Helper for the main fuel lemma: if a workshop day occurs `j` offsets
ahead, the loop produces its next occurrence within `j + 1` iterations. -/
lemma gnwAux_fuel_aux (from_dt r : ℕ)
    (IH : ∀ d fuel fuel', 1 ≤ d → 7 * r ≤ fuel → 7 * r ≤ fuel' →
      gnwAux from_dt fuel d r = gnwAux from_dt fuel' d r ∧
      (gnwAux from_dt fuel d r).length = r) :
    ∀ j d fuel fuel', 1 ≤ d →
      weekdayOf (from_dt + (d + j) * 1440) ∈ WORKSHOP_DAYS →
      j + 1 + 7 * r ≤ fuel → j + 1 + 7 * r ≤ fuel' →
      gnwAux from_dt fuel d (r + 1) = gnwAux from_dt fuel' d (r + 1) ∧
      (gnwAux from_dt fuel d (r + 1)).length = r + 1 := by
  intro j
  induction j with
  | zero =>
    intro d fuel fuel' hd hw hf hf'
    obtain ⟨f, rfl⟩ : ∃ f, fuel = f + 1 := ⟨fuel - 1, by omega⟩
    obtain ⟨f', rfl⟩ : ∃ f', fuel' = f' + 1 := ⟨fuel' - 1, by omega⟩
    have hc : weekdayOf (from_dt + d * 1440) ∈ WORKSHOP_DAYS ∧
        from_dt < replaceHour20 (from_dt + d * 1440) := by
      refine ⟨?_, replaceHour20_gt from_dt d hd⟩
      simpa using hw
    have h1 := IH (d + 1) f f' (by omega) (by omega) (by omega)
    rw [gnwAux_succ, gnwAux_succ, if_pos hc, if_pos hc]
    exact ⟨by rw [h1.1], by simp [h1.2]⟩
  | succ j ih =>
    intro d fuel fuel' hd hw hf hf'
    obtain ⟨f, rfl⟩ : ∃ f, fuel = f + 1 := ⟨fuel - 1, by omega⟩
    obtain ⟨f', rfl⟩ : ∃ f', fuel' = f' + 1 := ⟨fuel' - 1, by omega⟩
    by_cases hc : weekdayOf (from_dt + d * 1440) ∈ WORKSHOP_DAYS ∧
        from_dt < replaceHour20 (from_dt + d * 1440)
    · have h1 := IH (d + 1) f f' (by omega) (by omega) (by omega)
      rw [gnwAux_succ, gnwAux_succ, if_pos hc, if_pos hc]
      exact ⟨by rw [h1.1], by simp [h1.2]⟩
    · have hw' : weekdayOf (from_dt + (d + 1 + j) * 1440) ∈ WORKSHOP_DAYS := by
        have h2 : d + 1 + j = d + (j + 1) := by omega
        rw [h2]; exact hw
      have h1 := ih (d + 1) f f' (by omega) hw' (by omega) (by omega)
      rw [gnwAux_succ, gnwAux_succ, if_neg hc, if_neg hc]
      exact h1

/-- Fuel irrelevance and completeness of the scan, for a starting offset of
at least one: the loop result does not depend on the fuel once the fuel is
at least `7 * r`, and it has exactly `r` elements. -/
lemma gnwAux_fuel_main (from_dt : ℕ) :
    ∀ r d fuel fuel', 1 ≤ d → 7 * r ≤ fuel → 7 * r ≤ fuel' →
      gnwAux from_dt fuel d r = gnwAux from_dt fuel' d r ∧
      (gnwAux from_dt fuel d r).length = r := by
  intro r
  induction r with
  | zero =>
    intro d fuel fuel' _ _ _
    rw [gnwAux_zero_r, gnwAux_zero_r]
    exact ⟨rfl, rfl⟩
  | succ r ih =>
    intro d fuel fuel' hd hf hf'
    obtain ⟨j, hj, hw⟩ := exists_workshop_day from_dt d
    exact gnwAux_fuel_aux from_dt r ih j d fuel fuel' hd hw (by omega) (by omega)

/-- Fuel irrelevance and completeness including the initial offset 0. -/
lemma gnw_fuel_top (from_dt count fuel fuel' : ℕ)
    (hf : 7 * count + 1 ≤ fuel) (hf' : 7 * count + 1 ≤ fuel') :
    gnwAux from_dt fuel 0 count = gnwAux from_dt fuel' 0 count ∧
    (gnwAux from_dt fuel 0 count).length = count := by
  cases count with
  | zero =>
    rw [gnwAux_zero_r, gnwAux_zero_r]
    exact ⟨rfl, rfl⟩
  | succ r =>
    obtain ⟨f, rfl⟩ : ∃ f, fuel = f + 1 := ⟨fuel - 1, by omega⟩
    obtain ⟨f', rfl⟩ : ∃ f', fuel' = f' + 1 := ⟨fuel' - 1, by omega⟩
    by_cases hc : weekdayOf (from_dt + 0 * 1440) ∈ WORKSHOP_DAYS ∧
        from_dt < replaceHour20 (from_dt + 0 * 1440)
    · have h1 := gnwAux_fuel_main from_dt r 1 f f' (by omega) (by omega) (by omega)
      rw [gnwAux_succ, gnwAux_succ, if_pos hc, if_pos hc]
      exact ⟨by rw [h1.1], by simp [h1.2]⟩
    · have h1 := gnwAux_fuel_main from_dt (r + 1) 1 f f' (by omega) (by omega) (by omega)
      rw [gnwAux_succ, gnwAux_succ, if_neg hc, if_neg hc]
      exact h1

/-- Any sufficient fuel computes `get_next_workshop_datetimes`: the source's
unbounded loop terminates with this result. -/
lemma gnw_eq_gnwAux (from_dt count fuel : ℕ) (hf : 7 * count + 1 ≤ fuel) :
    gnwAux from_dt fuel 0 count = get_next_workshop_datetimes from_dt count := by
  unfold get_next_workshop_datetimes
  exact (gnw_fuel_top from_dt count fuel (7 * count + 7) hf (by omega)).1

/-- The generator returns exactly `count` occurrences. -/
lemma gnw_length (from_dt count : ℕ) :
    (get_next_workshop_datetimes from_dt count).length = count := by
  unfold get_next_workshop_datetimes
  exact (gnw_fuel_top from_dt count (7 * count + 7) (7 * count + 7)
    (by omega) (by omega)).2

/-- Every element produced by the loop comes from a scanned day offset, has
a workshop weekday, and lies strictly after the reference instant. -/
lemma gnwAux_mem (from_dt : ℕ) :
    ∀ fuel d r x, x ∈ gnwAux from_dt fuel d r →
      ∃ d', d ≤ d' ∧ x = replaceHour20 (from_dt + d' * 1440) ∧
        weekdayOf (from_dt + d' * 1440) ∈ WORKSHOP_DAYS ∧ from_dt < x := by
  intro fuel
  induction fuel with
  | zero =>
    intro d r x hx
    rw [gnwAux_zero_fuel] at hx
    simp at hx
  | succ f ih =>
    intro d r x hx
    cases r with
    | zero =>
      rw [gnwAux_zero_r] at hx
      simp at hx
    | succ r =>
      rw [gnwAux_succ] at hx
      by_cases hc : weekdayOf (from_dt + d * 1440) ∈ WORKSHOP_DAYS ∧
          from_dt < replaceHour20 (from_dt + d * 1440)
      · rw [if_pos hc] at hx
        rcases List.mem_cons.1 hx with h | h
        · exact ⟨d, le_refl d, h, hc.1, h ▸ hc.2⟩
        · obtain ⟨d', hd', rest⟩ := ih (d + 1) r x h
          exact ⟨d', by omega, rest⟩
      · rw [if_neg hc] at hx
        obtain ⟨d', hd', rest⟩ := ih (d + 1) (r + 1) x hx
        exact ⟨d', by omega, rest⟩

lemma replaceHour20_mono (from_dt d d' : ℕ) (h : d < d') :
    replaceHour20 (from_dt + d * 1440) < replaceHour20 (from_dt + d' * 1440) := by
  unfold replaceHour20
  omega

/-- The loop produces a strictly increasing list. -/
lemma gnwAux_pairwise (from_dt : ℕ) :
    ∀ fuel d r, (gnwAux from_dt fuel d r).Pairwise (· < ·) := by
  intro fuel
  induction fuel with
  | zero =>
    intro d r
    rw [gnwAux_zero_fuel]
    exact List.Pairwise.nil
  | succ f ih =>
    intro d r
    cases r with
    | zero =>
      rw [gnwAux_zero_r]
      exact List.Pairwise.nil
    | succ r =>
      rw [gnwAux_succ]
      by_cases hc : weekdayOf (from_dt + d * 1440) ∈ WORKSHOP_DAYS ∧
          from_dt < replaceHour20 (from_dt + d * 1440)
      · rw [if_pos hc]
        refine List.pairwise_cons.2 ⟨?_, ih (d + 1) r⟩
        intro y hy
        obtain ⟨d', hd', hy2, _, _⟩ := gnwAux_mem from_dt f (d + 1) r y hy
        rw [hy2]
        exact replaceHour20_mono from_dt d d' (by omega)
      · rw [if_neg hc]
        exact ih (d + 1) (r + 1)

/-- An occurrence instant is at minute 1200 of its day (20:00) and has the
weekday of its calendar day. -/
lemma replaceHour20_props (t : ℕ) :
    replaceHour20 t % 1440 = 1200 ∧ weekdayOf (replaceHour20 t) = weekdayOf t := by
  unfold replaceHour20 weekdayOf
  constructor <;> omega

/-! ### Dictionary and counting lemmas -/

lemma dictGet_dictSet_self {α : Type} (m : List (String × List α)) (k : String)
    (v : List α) : dictGet (dictSet m k v) k = v := by
  simp [dictGet, dictSet]

lemma dictGet_dictSet_ne {α : Type} (m : List (String × List α)) (k k' : String)
    (v : List α) (h : k' ≠ k) : dictGet (dictSet m k v) k' = dictGet m k' := by
  simp [dictGet, dictSet, Ne.symm h]

lemma memKey_dictSet_self {α : Type} (m : List (String × List α)) (k : String)
    (v : List α) : memKey (dictSet m k v) k = true := by
  simp [memKey, dictSet]

lemma memKey_dictSet_ne {α : Type} (m : List (String × List α)) (k k' : String)
    (v : List α) (h : k' ≠ k) : memKey (dictSet m k v) k' = memKey m k' := by
  simp [memKey, dictSet, Ne.symm h]

lemma dictGet_cleanup (today : ℕ) (tr : List (String × List ℕ)) (e : String) :
    dictGet (cleanup_old_workshops today tr) e
      = (dictGet tr e).filter (fun d => today ≤ d) := by
  induction tr with
  | nil => simp [cleanup_old_workshops, dictGet]
  | cons p rest ih =>
    simp only [cleanup_old_workshops, List.map_cons, dictGet] at *
    by_cases h : p.1 = e
    · simp [h]
    · simp [h, ih]

lemma memKey_cleanup (today : ℕ) (tr : List (String × List ℕ)) (e : String) :
    memKey (cleanup_old_workshops today tr) e = memKey tr e := by
  induction tr with
  | nil => rfl
  | cons p rest ih =>
    simp only [cleanup_old_workshops, List.map_cons, memKey, List.any_cons] at ih ⊢
    rw [ih]

lemma cntRem_append (e : String) (d h : ℕ) (l1 l2 : List Event) :
    cntRem e d h (l1 ++ l2) = cntRem e d h l1 + cntRem e d h l2 := by
  simp [cntRem, List.countP_append]

lemma cntReg_append (e : String) (l1 l2 : List Event) :
    cntReg e (l1 ++ l2) = cntReg e l1 + cntReg e l2 := by
  simp [cntReg, List.countP_append]

lemma cntRemAll_append (e : String) (l1 l2 : List Event) :
    cntRemAll e (l1 ++ l2) = cntRemAll e l1 + cntRemAll e l2 := by
  simp [cntRemAll, List.countP_append]

lemma cntRemDate_append (e : String) (d : ℕ) (l1 l2 : List Event) :
    cntRemDate e d (l1 ++ l2) = cntRemDate e d l1 + cntRemDate e d l2 := by
  simp [cntRemDate, List.countP_append]

lemma cntRem_single_reg (e e' : String) (d h : ℕ) :
    cntRem e d h [(e', SendKind.registration)] = 0 := by
  simp [cntRem, List.countP_cons]

lemma cntRem_single_rem (e e' : String) (d h d' h' : ℕ) :
    cntRem e d h [(e', SendKind.reminder d' h')]
      = if e' = e ∧ d' = d ∧ h' = h then 1 else 0 := by
  by_cases hc : e' = e ∧ d' = d ∧ h' = h
  · obtain ⟨h1, h2, h3⟩ := hc
    subst h1; subst h2; subst h3
    simp [cntRem, List.countP_cons]
  · rw [if_neg hc]
    have hne : ((e', SendKind.reminder d' h') : Event) ≠ (e, SendKind.reminder d h) := by
      intro hh
      rw [Prod.ext_iff] at hh
      exact hc ⟨hh.1, by injection hh.2, by injection hh.2⟩
    simp [cntRem, List.countP_cons, hne]

lemma cntReg_single_reg (e e' : String) :
    cntReg e [(e', SendKind.registration)] = if e' = e then 1 else 0 := by
  by_cases hc : e' = e
  · subst hc; simp [cntReg, List.countP_cons]
  · have hne : ((e', SendKind.registration) : Event) ≠ (e, SendKind.registration) := by
      intro hh
      rw [Prod.ext_iff] at hh
      exact hc hh.1
    simp [cntReg, List.countP_cons, hne, hc]

lemma cntReg_single_rem (e e' : String) (d h : ℕ) :
    cntReg e [(e', SendKind.reminder d h)] = 0 := by
  simp [cntReg, List.countP_cons]

lemma cntRem_nil (e : String) (d h : ℕ) : cntRem e d h [] = 0 := rfl

lemma cntReg_nil (e : String) : cntReg e [] = 0 := rfl

lemma indRS_dictSet_self (rs : List (String × List (ℕ × ℕ))) (e : String)
    (L : List (ℕ × ℕ)) (k : ℕ × ℕ) :
    indRS (dictSet rs e L) e k = if k ∈ L then 1 else 0 := by
  simp [indRS, dictGet_dictSet_self]

lemma indRS_dictSet_ne (rs : List (String × List (ℕ × ℕ))) (e e' : String)
    (L : List (ℕ × ℕ)) (k : ℕ × ℕ) (h : e' ≠ e) :
    indRS (dictSet rs e L) e' k = indRS rs e' k := by
  simp [indRS, dictGet_dictSet_ne rs e e' L h]

/-- Preservation of a predicate along a left fold. -/
lemma foldl_preserve {α β : Type _} (P : α → Prop) (f : α → β → α)
    (hf : ∀ a b, P a → P (f a b)) : ∀ (l : List β) (a : α), P a → P (l.foldl f a) := by
  intro l
  induction l with
  | nil => intro a ha; exact ha
  | cons b bs ih =>
    intro a ha
    exact ih (f a b) (hf a b ha)

/-! ### Send-accounting invariants

The engine records a ReminderKey exactly when the corresponding send
succeeded during the run, and marks an address processed exactly when its
confirmation send succeeded: each membership indicator grows by exactly the
number of corresponding successful sends. -/

/-- Reminder accounting relative to the state at the start of a run. -/
def RInv (rs0 rs : List (String × List (ℕ × ℕ))) (evs : List Event) : Prop :=
  ∀ e d h, indRS rs e (d, h) = indRS rs0 e (d, h) + cntRem e d h evs

/-- Registration accounting relative to the state at the start of a run. -/
def PInv (p0 p : List String) (evs : List Event) : Prop :=
  ∀ e, indMem p e = indMem p0 e + cntReg e evs

/-- Combined accounting invariant over the per-row accumulator. -/
def TInv (p0 : List String) (rs0 : List (String × List (ℕ × ℕ)))
    (acc : TickAcc) : Prop :=
  PInv p0 acc.st.processed_emails acc.events ∧
  RInv rs0 acc.st.reminder_sent acc.events

lemma processSlot_inv (now : ℕ) (oracle : ℕ → Bool) (email : String) (d0 hour : ℕ)
    (rs0 : List (String × List (ℕ × ℕ))) (p0 p : List String) (sacc : SlotAcc)
    (halias : sacc.reminders = dictGet sacc.rs email)
    (hR : RInv rs0 sacc.rs sacc.events)
    (hP : PInv p0 p sacc.events) :
    (processSlot now oracle email d0 sacc hour).reminders
        = dictGet (processSlot now oracle email d0 sacc hour).rs email ∧
    RInv rs0 (processSlot now oracle email d0 sacc hour).rs
      (processSlot now oracle email d0 sacc hour).events ∧
    PInv p0 p (processSlot now oracle email d0 sacc hour).events := by
  unfold processSlot
  by_cases htol : is_within_tolerance now hour = true
  · rw [if_pos htol]
    by_cases hkey : (d0, hour) ∈ sacc.reminders
    · rw [if_pos hkey]
      exact ⟨halias, hR, hP⟩
    · rw [if_neg hkey]
      simp only [send_email]
      by_cases hok : oracle sacc.attempt = true
      · rw [if_pos hok]
        refine ⟨by rw [dictGet_dictSet_self], ?_, ?_⟩
        · intro e d h
          by_cases he : e = email
          · subst he
            rw [indRS_dictSet_self, cntRem_append, cntRem_single_rem]
            by_cases hk : ((d, h) : ℕ × ℕ) = (d0, hour)
            · rw [Prod.ext_iff] at hk
              simp only at hk
              obtain ⟨hd, hh⟩ := hk
              subst hd; subst hh
              have h0 : indRS sacc.rs e (d, h) = 0 := by
                unfold indRS
                rw [← halias]
                exact if_neg hkey
              have h1 := hR e d h
              rw [h0] at h1
              rw [if_pos (List.mem_append.2 (Or.inr (List.mem_singleton.2 rfl))),
                if_pos ⟨rfl, rfl, rfl⟩]
              omega
            · have hsing : (if e = e ∧ d0 = d ∧ hour = h then (1 : ℕ) else 0) = 0 := by
                rw [if_neg]
                intro hc
                exact hk (by rw [Prod.ext_iff]; exact ⟨hc.2.1.symm, hc.2.2.symm⟩)
              have hL : (if ((d, h) : ℕ × ℕ) ∈ sacc.reminders ++ [(d0, hour)]
                  then (1 : ℕ) else 0) = indRS sacc.rs e (d, h) := by
                unfold indRS
                rw [← halias]
                by_cases hm : ((d, h) : ℕ × ℕ) ∈ sacc.reminders
                · rw [if_pos (List.mem_append.2 (Or.inl hm)), if_pos hm]
                · rw [if_neg, if_neg hm]
                  intro hmm
                  rcases List.mem_append.1 hmm with hmm | hmm
                  · exact hm hmm
                  · exact hk (List.mem_singleton.1 hmm)
              rw [hL, hsing, Nat.add_zero]
              exact hR e d h
          · rw [indRS_dictSet_ne _ _ _ _ _ he, cntRem_append, cntRem_single_rem]
            have hsing : (if email = e ∧ d0 = d ∧ hour = h then (1 : ℕ) else 0) = 0 := by
              rw [if_neg]
              intro hc
              exact he hc.1.symm
            rw [hsing, Nat.add_zero]
            exact hR e d h
        · intro e
          rw [cntReg_append, cntReg_single_rem, Nat.add_zero]
          exact hP e
      · rw [if_neg hok]
        exact ⟨halias, hR, hP⟩
  · rw [if_neg htol]
    exact ⟨halias, hR, hP⟩

lemma slotFold_inv (now : ℕ) (oracle : ℕ → Bool) (email : String) (d0 : ℕ)
    (rs0 : List (String × List (ℕ × ℕ))) (p0 p : List String) :
    ∀ (hours : List ℕ) (sacc : SlotAcc),
      sacc.reminders = dictGet sacc.rs email →
      RInv rs0 sacc.rs sacc.events →
      PInv p0 p sacc.events →
      (hours.foldl (processSlot now oracle email d0) sacc).reminders
          = dictGet (hours.foldl (processSlot now oracle email d0) sacc).rs email ∧
      RInv rs0 (hours.foldl (processSlot now oracle email d0) sacc).rs
        (hours.foldl (processSlot now oracle email d0) sacc).events ∧
      PInv p0 p (hours.foldl (processSlot now oracle email d0) sacc).events := by
  intro hours
  induction hours with
  | nil =>
    intro sacc h1 h2 h3
    exact ⟨h1, h2, h3⟩
  | cons hh hs ih =>
    intro sacc h1 h2 h3
    obtain ⟨g1, g2, g3⟩ := processSlot_inv now oracle email d0 hh rs0 p0 p sacc h1 h2 h3
    exact ih (processSlot now oracle email d0 sacc hh) g1 g2 g3

lemma regStep_inv (oracle : ℕ → Bool) (email : String) (p0 : List String)
    (rs0 : List (String × List (ℕ × ℕ))) (acc : TickAcc)
    (h : TInv p0 rs0 acc) : TInv p0 rs0 (regStep oracle email acc) := by
  unfold regStep
  by_cases hmem : email ∈ acc.st.processed_emails
  · rw [if_pos hmem]
    exact h
  · rw [if_neg hmem]
    simp only [send_email]
    by_cases hok : oracle acc.attempt = true
    · rw [if_pos hok]
      constructor
      · show PInv p0 (email :: acc.st.processed_emails)
          (acc.events ++ [(email, SendKind.registration)])
        intro e
        rw [cntReg_append, cntReg_single_reg]
        by_cases he : e = email
        · subst he
          have h0 : indMem acc.st.processed_emails e = 0 := if_neg hmem
          have h1 := h.1 e
          rw [h0] at h1
          have h2 : indMem (e :: acc.st.processed_emails) e = 1 :=
            if_pos (List.mem_cons_self e _)
          rw [h2, if_pos rfl]
          omega
        · have h2 : indMem (email :: acc.st.processed_emails) e
              = indMem acc.st.processed_emails e := by
            unfold indMem
            by_cases hm : e ∈ acc.st.processed_emails
            · rw [if_pos (List.mem_cons_of_mem _ hm), if_pos hm]
            · rw [if_neg, if_neg hm]
              intro hc
              rcases List.mem_cons.1 hc with hc | hc
              · exact he hc
              · exact hm hc
          rw [h2, if_neg (fun hc => he hc.symm), Nat.add_zero]
          exact h.1 e
      · show RInv rs0 acc.st.reminder_sent
          (acc.events ++ [(email, SendKind.registration)])
        intro e d hh
        rw [cntRem_append, cntRem_single_reg, Nat.add_zero]
        exact h.2 e d hh
    · rw [if_neg hok]
      exact h

lemma assignStep_inv (now : ℕ) (email : String) (p0 : List String)
    (rs0 : List (String × List (ℕ × ℕ))) (acc : TickAcc)
    (h : TInv p0 rs0 acc) : TInv p0 rs0 (assignStep now email acc) := by
  unfold assignStep
  by_cases hmem : memKey acc.st.workshop_tracking email = true
  · rw [if_pos hmem]
    exact h
  · rw [if_neg hmem]
    exact h

lemma remSlots_inv (now : ℕ) (oracle : ℕ → Bool) (email : String) (d0 : ℕ)
    (p0 : List String) (rs0 : List (String × List (ℕ × ℕ))) (acc : TickAcc)
    (h : TInv p0 rs0 acc) : TInv p0 rs0 (remSlots now oracle email d0 acc) := by
  unfold remSlots
  by_cases hd : dateOf now = d0
  · rw [if_pos hd]
    have h3 := slotFold_inv now oracle email d0 rs0 p0 acc.st.processed_emails
      [10, 19, 20]
      { reminders := dictGet acc.st.reminder_sent email, rs := acc.st.reminder_sent,
        attempt := acc.attempt, events := acc.events } rfl h.2 h.1
    exact ⟨h3.2.2, h3.2.1⟩
  · rw [if_neg hd]
    exact h

lemma remTail_frame (now : ℕ) (email : String) (d0 : ℕ) (rest : List ℕ)
    (acc : TickAcc) :
    (remTail now email d0 rest acc).st.processed_emails = acc.st.processed_emails ∧
    (remTail now email d0 rest acc).st.reminder_sent = acc.st.reminder_sent ∧
    (remTail now email d0 rest acc).events = acc.events ∧
    (remTail now email d0 rest acc).attempt = acc.attempt := by
  unfold remTail
  by_cases hc : dateOf now = d0 ∧ 22 ≤ hourOf now
  · rw [if_pos hc]
    exact ⟨rfl, rfl, rfl, rfl⟩
  · rw [if_neg hc]
    exact ⟨rfl, rfl, rfl, rfl⟩

lemma remPhase_inv (now : ℕ) (oracle : ℕ → Bool) (email : String)
    (p0 : List String) (rs0 : List (String × List (ℕ × ℕ))) (acc : TickAcc)
    (h : TInv p0 rs0 acc) : TInv p0 rs0 (remPhase now oracle email acc) := by
  unfold remPhase
  cases hq : dictGet acc.st.workshop_tracking email with
  | nil => exact h
  | cons d0 rest =>
    have h1 := remSlots_inv now oracle email d0 p0 rs0 acc h
    have h2 := remTail_frame now email d0 rest (remSlots now oracle email d0 acc)
    constructor
    · intro e
      rw [h2.1, h2.2.2.1]
      exact h1.1 e
    · intro e d hh
      rw [h2.2.1, h2.2.2.1]
      exact h1.2 e d hh

lemma processRow_inv (now : ℕ) (oracle : ℕ → Bool) (p0 : List String)
    (rs0 : List (String × List (ℕ × ℕ))) (acc : TickAcc) (row : List String)
    (h : TInv p0 rs0 acc) : TInv p0 rs0 (processRow now oracle acc row) := by
  unfold processRow
  cases h1 : row.get? 1 with
  | none => exact h
  | some n =>
    cases h2 : row.get? 2 with
    | none => exact h
    | some e0 =>
      show TInv p0 rs0 (if pyStrip e0 = "" ∨ pyUpper (pyStrip n) = "" then acc
        else remPhase now oracle (pyStrip e0) (regStep oracle (pyStrip e0)
          (assignStep now (pyStrip e0) acc)))
      by_cases hblank : pyStrip e0 = "" ∨ pyUpper (pyStrip n) = ""
      · rw [if_pos hblank]
        exact h
      · rw [if_neg hblank]
        exact remPhase_inv now oracle (pyStrip e0) p0 rs0 _
          (regStep_inv oracle (pyStrip e0) p0 rs0 _
            (assignStep_inv now (pyStrip e0) p0 rs0 acc h))

lemma tick_acct (now : ℕ) (sheet : List (List String)) (oracle : ℕ → Bool)
    (s : EngineState) :
    PInv s.processed_emails (tick now sheet oracle s).1.processed_emails
      (tick now sheet oracle s).2 ∧
    RInv s.reminder_sent (tick now sheet oracle s).1.reminder_sent
      (tick now sheet oracle s).2 := by
  have h0 : TInv s.processed_emails s.reminder_sent
      { st := { s with workshop_tracking :=
          cleanup_old_workshops (dateOf now) s.workshop_tracking },
        attempt := 0, events := [] } := by
    constructor
    · intro e
      rfl
    · intro e d h
      rfl
  have h1 := foldl_preserve (TInv s.processed_emails s.reminder_sent)
    (processRow now oracle)
    (processRow_inv now oracle s.processed_emails s.reminder_sent)
    (sheet.drop 1) _ h0
  exact ⟨h1.1, h1.2⟩

lemma runTrace_acct (ts : List TickInput) : ∀ s : EngineState,
    (∀ e, indMem (runTrace s ts).1.processed_emails e
        = indMem s.processed_emails e + cntReg e (runTrace s ts).2) ∧
    (∀ e d h, indRS (runTrace s ts).1.reminder_sent e (d, h)
        = indRS s.reminder_sent e (d, h) + cntRem e d h (runTrace s ts).2) := by
  induction ts with
  | nil =>
    intro s
    constructor
    · intro e
      rfl
    · intro e d h
      rfl
  | cons t ts ih =>
    intro s
    have h1 := tick_acct t.now t.sheet t.oracle s
    have h2 := ih (tick t.now t.sheet t.oracle s).1
    have hfst : (runTrace s (t :: ts)).1
        = (runTrace (tick t.now t.sheet t.oracle s).1 ts).1 := rfl
    have hsnd : (runTrace s (t :: ts)).2
        = (tick t.now t.sheet t.oracle s).2
          ++ (runTrace (tick t.now t.sheet t.oracle s).1 ts).2 := rfl
    constructor
    · intro e
      rw [hfst, hsnd, cntReg_append]
      have e1 := h1.1 e
      have e2 := h2.1 e
      omega
    · intro e d h
      rw [hfst, hsnd, cntRem_append]
      have e1 := h1.2 e d h
      have e2 := h2.2 e d h
      omega

lemma indRS_le_one (rs : List (String × List (ℕ × ℕ))) (e : String) (k : ℕ × ℕ) :
    indRS rs e k ≤ 1 := by
  unfold indRS
  split <;> omega

lemma indMem_le_one (l : List String) (e : String) : indMem l e ≤ 1 := by
  unfold indMem
  split <;> omega

lemma indMem_eq_one (l : List String) (e : String) : e ∈ l ↔ indMem l e = 1 := by
  unfold indMem
  split <;> simp_all

lemma indRS_eq_one (rs : List (String × List (ℕ × ℕ))) (e : String) (k : ℕ × ℕ) :
    k ∈ dictGet rs e ↔ indRS rs e k = 1 := by
  unfold indRS
  split <;> simp_all

/-! ### Claim theorems -/

/-- C1: For every recipient and every (occurrence-date, slot) pair, across
any number of ticks, at most one successful reminder send is recorded; the
engine checks membership of the ReminderKey in `reminders_sent` before
sending and inserts it only after a confirmed send, so with the key already
present nothing is sent. -/
theorem spec_C1 (s : EngineState) (ts : List TickInput) (e : String) (d h : ℕ) :
    cntRem e d h (runTrace s ts).2 ≤ 1 ∧
    ((d, h) ∈ dictGet s.reminder_sent e → cntRem e d h (runTrace s ts).2 = 0) := by
  have h1 := (runTrace_acct ts s).2 e d h
  have h2 := indRS_le_one (runTrace s ts).1.reminder_sent e (d, h)
  constructor
  · omega
  · intro hm
    have h3 : indRS s.reminder_sent e (d, h) = 1 := (indRS_eq_one _ _ _).1 hm
    omega

/-- Witness for C1: a run of one tick on a state where the key `(4, 10)` is
already recorded sends nothing further for that key. -/
theorem spec_C1_witness :
    cntRem "e@x" 4 10 (runTrace ⟨[], [("e@x", [(4, 10)])], [("e@x", [4, 6, 8])]⟩
      [⟨6360, [[], ["", "n", "e@x"]], fun _ => true⟩]).2 ≤ 1 ∧
    cntRem "e@x" 4 10 (runTrace ⟨[], [("e@x", [(4, 10)])], [("e@x", [4, 6, 8])]⟩
      [⟨6360, [[], ["", "n", "e@x"]], fun _ => true⟩]).2 = 0 :=
  ⟨(spec_C1 ⟨[], [("e@x", [(4, 10)])], [("e@x", [4, 6, 8])]⟩
      [⟨6360, [[], ["", "n", "e@x"]], fun _ => true⟩] "e@x" 4 10).1,
   (spec_C1 ⟨[], [("e@x", [(4, 10)])], [("e@x", [4, 6, 8])]⟩
      [⟨6360, [[], ["", "n", "e@x"]], fun _ => true⟩] "e@x" 4 10).2 (by decide)⟩

/-- C2: For every recipient, at most one registration confirmation is ever
sent across any number of ticks; a recipient already marked registered gets
none, and the registered flag, once set, is never cleared. -/
theorem spec_C2 (s : EngineState) (ts : List TickInput) (e : String) :
    cntReg e (runTrace s ts).2 ≤ 1 ∧
    (e ∈ s.processed_emails →
      cntReg e (runTrace s ts).2 = 0 ∧ e ∈ (runTrace s ts).1.processed_emails) := by
  have h1 := (runTrace_acct ts s).1 e
  have h2 := indMem_le_one (runTrace s ts).1.processed_emails e
  constructor
  · omega
  · intro hm
    have h3 : indMem s.processed_emails e = 1 := (indMem_eq_one _ _).1 hm
    refine ⟨by omega, (indMem_eq_one _ _).2 (by omega)⟩

/-- Witness for C2: a run of one tick on a state where the address is already
registered sends no registration email and keeps the flag. -/
theorem spec_C2_witness :
    cntReg "d@x" (runTrace ⟨["d@x"], [], [("d@x", [4, 6, 8])]⟩
      [⟨6360, [[], ["", "n", "d@x"]], fun _ => true⟩]).2 = 0 ∧
    "d@x" ∈ (runTrace ⟨["d@x"], [], [("d@x", [4, 6, 8])]⟩
      [⟨6360, [[], ["", "n", "d@x"]], fun _ => true⟩]).1.processed_emails :=
  (spec_C2 ⟨["d@x"], [], [("d@x", [4, 6, 8])]⟩
      [⟨6360, [[], ["", "n", "d@x"]], fun _ => true⟩] "d@x").2 (by decide)

/-- C3: the generator returns exactly `count` occurrences, strictly
increasing, each strictly after the reference instant, each at 20:00 (minute
1200 of its day) on a weekday in {Tue, Fri, Sun}; from Monday 09:00 IST
(instant 540) the first occurrence is Tuesday 20:00 IST of the same week
(instant 2640). -/
theorem spec_C3 (from_dt count : ℕ) :
    (get_next_workshop_datetimes from_dt count).length = count ∧
    (get_next_workshop_datetimes from_dt count).Pairwise (· < ·) ∧
    (∀ x ∈ get_next_workshop_datetimes from_dt count,
      from_dt < x ∧ x % 1440 = 1200 ∧ weekdayOf x ∈ WORKSHOP_DAYS) ∧
    (get_next_workshop_datetimes 540 3).head? = some 2640 := by
  refine ⟨gnw_length from_dt count, ?_, ?_, by decide⟩
  · unfold get_next_workshop_datetimes
    exact gnwAux_pairwise from_dt _ 0 count
  · intro x hx
    unfold get_next_workshop_datetimes at hx
    obtain ⟨d2, _, hx2, hw, hgt⟩ := gnwAux_mem from_dt _ 0 count x hx
    refine ⟨hgt, ?_, ?_⟩
    · rw [hx2]
      exact (replaceHour20_props _).1
    · rw [hx2, (replaceHour20_props _).2]
      exact hw

/-- Witness for C3 at the scenario instant: Monday 09:00, three occurrences,
the first being Tuesday 20:00. -/
theorem spec_C3_witness :
    (get_next_workshop_datetimes 540 3).length = 3 ∧
    (540 < 2640 ∧ 2640 % 1440 = 1200 ∧ weekdayOf 2640 ∈ WORKSHOP_DAYS) :=
  ⟨(spec_C3 540 3).1, (spec_C3 540 3).2.2.1 2640 (by decide)⟩

/-- C7 counterexample: asked for 10 occurrences from Monday 09:00 the scan
proceeds past the claimed 8-day horizon (the last occurrence is at day
offset 22) and still returns the full list: the code has no bounded horizon
and no failure or fallback path. -/
theorem spec_C7_cex :
    get_next_workshop_datetimes 540 10
      = [2640, 6960, 9840, 12720, 17040, 19920, 22800, 27120, 30000, 32880] ∧
    (get_next_workshop_datetimes 540 10).length = 10 ∧
    540 + 8 * 1440 < 32880 := by
  decide

/-- C7 amended: the generator scans forward day-by-day from the reference
instant, inclusive of the current day (every result is the 20:00 instant of
a scanned day offset), with no bounded horizon and no failure or fallback
path: it always returns exactly `count` occurrences. -/
theorem spec_C7_amended (from_dt count : ℕ) :
    (get_next_workshop_datetimes from_dt count).length = count ∧
    ∀ x ∈ get_next_workshop_datetimes from_dt count,
      ∃ d2, x = replaceHour20 (from_dt + d2 * 1440) := by
  refine ⟨gnw_length from_dt count, ?_⟩
  intro x hx
  unfold get_next_workshop_datetimes at hx
  obtain ⟨d2, _, hx2, _, _⟩ := gnwAux_mem from_dt _ 0 count x hx
  exact ⟨d2, hx2⟩

/-- Witness for the amended C7. -/
theorem spec_C7_witness :
    (get_next_workshop_datetimes 540 2).length = 2 ∧
    ∃ d2, (2640 : ℕ) = replaceHour20 (540 + d2 * 1440) :=
  ⟨(spec_C7_amended 540 2).1, (spec_C7_amended 540 2).2 2640 (by decide)⟩

/-- C8: cleanup removes from each personal queue exactly the dates strictly
before `today` (a date is kept iff it is on or after `today`), keeps the
remaining dates in their original order, and leaves `reminder_sent` and
`processed_emails` completely unchanged. -/
theorem spec_C8 (s : EngineState) (today : ℕ) (email : String) :
    (∀ d, d ∈ dictGet (cleanup_old_workshops today s.workshop_tracking) email ↔
      (d ∈ dictGet s.workshop_tracking email ∧ today ≤ d)) ∧
    (dictGet (cleanup_old_workshops today s.workshop_tracking) email).Sublist
      (dictGet s.workshop_tracking email) ∧
    ({ s with workshop_tracking := cleanup_old_workshops today s.workshop_tracking }
      : EngineState).reminder_sent = s.reminder_sent ∧
    ({ s with workshop_tracking := cleanup_old_workshops today s.workshop_tracking }
      : EngineState).processed_emails = s.processed_emails := by
  refine ⟨?_, ?_, rfl, rfl⟩
  · intro d
    rw [dictGet_cleanup]
    simp [List.mem_filter]
  · rw [dictGet_cleanup]
    exact List.filter_sublist _

/-- C9: the unbounded scanning loop of the generator terminates: with any
fuel of at least `7 * count + 1` iterations the loop has already produced
its final, complete result of exactly `count` occurrences, because every
window of 7 consecutive day offsets contains a workshop weekday. -/
theorem spec_C9 (from_dt count fuel : ℕ) (hf : 7 * count + 1 ≤ fuel) :
    gnwAux from_dt fuel 0 count = get_next_workshop_datetimes from_dt count ∧
    (get_next_workshop_datetimes from_dt count).length = count ∧
    ∀ d, ∃ j, j ≤ 6 ∧ weekdayOf (from_dt + (d + j) * 1440) ∈ WORKSHOP_DAYS :=
  ⟨gnw_eq_gnwAux from_dt count fuel hf, gnw_length from_dt count,
   fun d => exists_workshop_day from_dt d⟩

/-- Witness for C9 with a large concrete fuel. -/
theorem spec_C9_witness :
    gnwAux 540 100 0 3 = get_next_workshop_datetimes 540 3 ∧
    (get_next_workshop_datetimes 540 3).length = 3 ∧
    ∃ j, j ≤ 6 ∧ weekdayOf (540 + (0 + j) * 1440) ∈ WORKSHOP_DAYS :=
  ⟨(spec_C9 540 3 100 (by decide)).1, (spec_C9 540 3 100 (by decide)).2.1,
   (spec_C9 540 3 100 (by decide)).2.2 0⟩

/-! ### Frame lemmas and slot-hour accounting -/

lemma assignStep_frame (now : ℕ) (email : String) (acc : TickAcc) :
    (assignStep now email acc).st.processed_emails = acc.st.processed_emails ∧
    (assignStep now email acc).st.reminder_sent = acc.st.reminder_sent ∧
    (assignStep now email acc).events = acc.events ∧
    (assignStep now email acc).attempt = acc.attempt := by
  unfold assignStep
  by_cases hmem : memKey acc.st.workshop_tracking email = true
  · rw [if_pos hmem]
    exact ⟨rfl, rfl, rfl, rfl⟩
  · rw [if_neg hmem]
    exact ⟨rfl, rfl, rfl, rfl⟩

lemma regStep_frame (oracle : ℕ → Bool) (email : String) (acc : TickAcc) :
    (regStep oracle email acc).st.workshop_tracking = acc.st.workshop_tracking ∧
    (regStep oracle email acc).st.reminder_sent = acc.st.reminder_sent := by
  unfold regStep
  by_cases hmem : email ∈ acc.st.processed_emails
  · rw [if_pos hmem]
    exact ⟨rfl, rfl⟩
  · rw [if_neg hmem]
    simp only [send_email]
    by_cases hok : oracle acc.attempt = true
    · rw [if_pos hok]
      exact ⟨rfl, rfl⟩
    · rw [if_neg hok]
      exact ⟨rfl, rfl⟩

lemma remSlots_tracking (now : ℕ) (oracle : ℕ → Bool) (email : String) (d0 : ℕ)
    (acc : TickAcc) :
    (remSlots now oracle email d0 acc).st.workshop_tracking
      = acc.st.workshop_tracking ∧
    (remSlots now oracle email d0 acc).st.processed_emails
      = acc.st.processed_emails := by
  unfold remSlots
  by_cases hd : dateOf now = d0
  · rw [if_pos hd]
    exact ⟨rfl, rfl⟩
  · rw [if_neg hd]
    exact ⟨rfl, rfl⟩

lemma hoursOk_nil : HoursOk [] := by
  intro ev hm
  simp at hm

lemma hoursOk_append_reg (evs : List Event) (e1 : String) (h : HoursOk evs) :
    HoursOk (evs ++ [(e1, SendKind.registration)]) := by
  intro ev hm d h2 hk
  rcases List.mem_append.1 hm with hm | hm
  · exact h ev hm d h2 hk
  · rw [List.mem_singleton.1 hm] at hk
    simp at hk

lemma hoursOk_append_rem (evs : List Event) (e1 : String) (d0 hour : ℕ)
    (hhour : hour = 10 ∨ hour = 19 ∨ hour = 20) (h : HoursOk evs) :
    HoursOk (evs ++ [(e1, SendKind.reminder d0 hour)]) := by
  intro ev hm d h2 hk
  rcases List.mem_append.1 hm with hm | hm
  · exact h ev hm d h2 hk
  · rw [List.mem_singleton.1 hm] at hk
    injection hk with hk1 hk2
    subst hk2
    exact hhour

lemma processSlot_hours (now : ℕ) (oracle : ℕ → Bool) (email : String)
    (d0 hour : ℕ) (sacc : SlotAcc) (hhour : hour = 10 ∨ hour = 19 ∨ hour = 20)
    (h : HoursOk sacc.events) :
    HoursOk (processSlot now oracle email d0 sacc hour).events := by
  unfold processSlot
  by_cases htol : is_within_tolerance now hour = true
  · rw [if_pos htol]
    by_cases hkey : (d0, hour) ∈ sacc.reminders
    · rw [if_pos hkey]
      exact h
    · rw [if_neg hkey]
      simp only [send_email]
      by_cases hok : oracle sacc.attempt = true
      · rw [if_pos hok]
        exact hoursOk_append_rem sacc.events email d0 hour hhour h
      · rw [if_neg hok]
        exact h
  · rw [if_neg htol]
    exact h

lemma slotFold_hours (now : ℕ) (oracle : ℕ → Bool) (email : String) (d0 : ℕ)
    (sacc : SlotAcc) (h : HoursOk sacc.events) :
    HoursOk ([10, 19, 20].foldl (processSlot now oracle email d0) sacc).events := by
  simp only [List.foldl]
  apply processSlot_hours now oracle email d0 20 _ (by omega)
  apply processSlot_hours now oracle email d0 19 _ (by omega)
  apply processSlot_hours now oracle email d0 10 _ (by omega)
  exact h

lemma regStep_hours (oracle : ℕ → Bool) (email : String) (acc : TickAcc)
    (h : HoursOk acc.events) : HoursOk (regStep oracle email acc).events := by
  unfold regStep
  by_cases hmem : email ∈ acc.st.processed_emails
  · rw [if_pos hmem]
    exact h
  · rw [if_neg hmem]
    simp only [send_email]
    by_cases hok : oracle acc.attempt = true
    · rw [if_pos hok]
      exact hoursOk_append_reg acc.events email h
    · rw [if_neg hok]
      exact h

lemma remSlots_hours (now : ℕ) (oracle : ℕ → Bool) (email : String) (d0 : ℕ)
    (acc : TickAcc) (h : HoursOk acc.events) :
    HoursOk (remSlots now oracle email d0 acc).events := by
  unfold remSlots
  by_cases hd : dateOf now = d0
  · rw [if_pos hd]
    exact slotFold_hours now oracle email d0 _ h
  · rw [if_neg hd]
    exact h

lemma remPhase_hours (now : ℕ) (oracle : ℕ → Bool) (email : String) (acc : TickAcc)
    (h : HoursOk acc.events) : HoursOk (remPhase now oracle email acc).events := by
  unfold remPhase
  cases hq : dictGet acc.st.workshop_tracking email with
  | nil => exact h
  | cons d0 rest =>
    rw [(remTail_frame now email d0 rest _).2.2.1]
    exact remSlots_hours now oracle email d0 acc h

lemma processRow_hours (now : ℕ) (oracle : ℕ → Bool) (acc : TickAcc)
    (row : List String) (h : HoursOk acc.events) :
    HoursOk (processRow now oracle acc row).events := by
  unfold processRow
  cases h1 : row.get? 1 with
  | none => exact h
  | some n =>
    cases h2 : row.get? 2 with
    | none => exact h
    | some e0 =>
      show HoursOk ((if pyStrip e0 = "" ∨ pyUpper (pyStrip n) = "" then acc
        else remPhase now oracle (pyStrip e0) (regStep oracle (pyStrip e0)
          (assignStep now (pyStrip e0) acc))).events)
      by_cases hblank : pyStrip e0 = "" ∨ pyUpper (pyStrip n) = ""
      · rw [if_pos hblank]
        exact h
      · rw [if_neg hblank]
        apply remPhase_hours
        apply regStep_hours
        rw [(assignStep_frame now (pyStrip e0) acc).2.2.1]
        exact h

lemma tick_hours (now : ℕ) (sheet : List (List String)) (oracle : ℕ → Bool)
    (s : EngineState) : HoursOk (tick now sheet oracle s).2 := by
  exact foldl_preserve (fun acc : TickAcc => HoursOk acc.events)
    (processRow now oracle)
    (fun a b ha => processRow_hours now oracle a b ha)
    (sheet.drop 1) _ hoursOk_nil

lemma runTrace_hours (ts : List TickInput) : ∀ s : EngineState,
    HoursOk (runTrace s ts).2 := by
  induction ts with
  | nil =>
    intro s ev hm
    rw [show (runTrace s []).2 = [] from rfl] at hm
    simp at hm
  | cons t ts ih =>
    intro s
    intro ev hm d h hk
    rw [show (runTrace s (t :: ts)).2 = (tick t.now t.sheet t.oracle s).2
      ++ (runTrace (tick t.now t.sheet t.oracle s).1 ts).2 from rfl] at hm
    rcases List.mem_append.1 hm with hm | hm
    · exact tick_hours t.now t.sheet t.oracle s ev hm d h hk
    · exact ih (tick t.now t.sheet t.oracle s).1 ev hm d h hk

lemma cntRemDate_decomp (e : String) (d : ℕ) (evs : List Event)
    (h : HoursOk evs) :
    cntRemDate e d evs
      ≤ cntRem e d 10 evs + cntRem e d 19 evs + cntRem e d 20 evs := by
  induction evs with
  | nil => simp [cntRemDate, cntRem]
  | cons ev rest ih =>
    have hrest : HoursOk rest := fun ev2 hm => h ev2 (List.mem_cons_of_mem _ hm)
    have ihr := ih hrest
    obtain ⟨e1, k⟩ := ev
    cases k with
    | registration =>
      simp only [cntRemDate, cntRem, List.countP_cons] at ihr ⊢
      simp only [decide_eq_true_eq]
      have hz1 : ¬ (((e1, SendKind.registration) : Event)
          = (e, SendKind.reminder d 10)) := by simp
      have hz2 : ¬ (((e1, SendKind.registration) : Event)
          = (e, SendKind.reminder d 19)) := by simp
      have hz3 : ¬ (((e1, SendKind.registration) : Event)
          = (e, SendKind.reminder d 20)) := by simp
      simp only [if_neg hz1, if_neg hz2, if_neg hz3]
      simpa using ihr
    | reminder d2 h2 =>
      have hh2 : h2 = 10 ∨ h2 = 19 ∨ h2 = 20 :=
        h (e1, SendKind.reminder d2 h2) (List.mem_cons_self _ _) d2 h2 rfl
      simp only [cntRemDate, cntRem, List.countP_cons] at ihr ⊢
      by_cases hmatch : e1 = e ∧ d2 = d
      · obtain ⟨hme, hmd⟩ := hmatch
        subst hme; subst hmd
        rcases hh2 with h2eq | h2eq | h2eq <;> subst h2eq <;> simp <;> omega
      · have hb : (((e1, SendKind.reminder d2 h2).1 == e)
            && (d2 == d)) = false := by
          rw [Bool.and_eq_false_iff]
          by_cases hc : e1 = e
          · right
            subst hc
            have hd2 : d2 ≠ d := fun hc2 => hmatch ⟨rfl, hc2⟩
            simp [hd2]
          · left
            simp [hc]
        have hz : ∀ hh : ℕ, ¬ (((e1, SendKind.reminder d2 h2) : Event)
            = (e, SendKind.reminder d hh)) := by
          intro hh hc
          rw [Prod.ext_iff] at hc
          injection hc.2 with hcd hch
          exact hmatch ⟨hc.1, hcd⟩
        simp only [hb, decide_eq_true_eq, if_neg (hz 10), if_neg (hz 19),
          if_neg (hz 20)]
        simpa using ihr

/-- C4 counterexample: recipient `a@x` already has 3 recorded reminders (the
claimed cap), yet the next tick, on the next occurrence day, sends a fourth
reminder — the code enforces no cap on the total number of reminders per
recipient. -/
theorem spec_C4_cex :
    (dictGet (⟨["a@x"], [("a@x", [(1, 10), (1, 19), (1, 20)])],
        [("a@x", [4, 6, 8])]⟩ : EngineState).reminder_sent "a@x").length = 3 ∧
    (tick 6360 [[], ["", "n", "a@x"]] (fun _ => true)
      ⟨["a@x"], [("a@x", [(1, 10), (1, 19), (1, 20)])], [("a@x", [4, 6, 8])]⟩).2
      = [("a@x", SendKind.reminder 4 10)] ∧
    cntRemAll "a@x" (tick 6360 [[], ["", "n", "a@x"]] (fun _ => true)
      ⟨["a@x"], [("a@x", [(1, 10), (1, 19), (1, 20)])], [("a@x", [4, 6, 8])]⟩).2
      = 1 := by
  decide

/-- C4 amended: there is no cap on the total number of reminders per
recipient; what the code bounds is the number of reminders per (recipient,
occurrence-date): each of the three slot hours fires at most once per date,
so at most 3 reminders are recorded per occurrence date across any number of
ticks. -/
theorem spec_C4_amended (s : EngineState) (ts : List TickInput) (e : String)
    (d : ℕ) : cntRemDate e d (runTrace s ts).2 ≤ 3 := by
  have hdec := cntRemDate_decomp e d (runTrace s ts).2 (runTrace_hours ts s)
  have h10 := (runTrace_acct ts s).2 e d 10
  have h19 := (runTrace_acct ts s).2 e d 19
  have h20 := (runTrace_acct ts s).2 e d 20
  have b10 := indRS_le_one (runTrace s ts).1.reminder_sent e (d, 10)
  have b19 := indRS_le_one (runTrace s ts).1.reminder_sent e (d, 19)
  have b20 := indRS_le_one (runTrace s ts).1.reminder_sent e (d, 20)
  omega

/-! ### Behaviour when the channel refuses every attempt -/

lemma processSlot_fail (now : ℕ) (email : String) (d0 hour : ℕ) (sacc : SlotAcc) :
    (processSlot now (fun _ => false) email d0 sacc hour).reminders
      = sacc.reminders ∧
    (processSlot now (fun _ => false) email d0 sacc hour).rs = sacc.rs ∧
    (processSlot now (fun _ => false) email d0 sacc hour).events = sacc.events := by
  unfold processSlot
  by_cases htol : is_within_tolerance now hour = true
  · rw [if_pos htol]
    by_cases hkey : (d0, hour) ∈ sacc.reminders
    · rw [if_pos hkey]
      exact ⟨rfl, rfl, rfl⟩
    · rw [if_neg hkey]
      simp only [send_email]
      rw [if_neg (by simp : ¬ ((false : Bool) = true))]
      exact ⟨rfl, rfl, rfl⟩
  · rw [if_neg htol]
    exact ⟨rfl, rfl, rfl⟩

lemma slotFold_fail (now : ℕ) (email : String) (d0 : ℕ) (sacc : SlotAcc) :
    ([10, 19, 20].foldl (processSlot now (fun _ => false) email d0) sacc).rs
      = sacc.rs ∧
    ([10, 19, 20].foldl (processSlot now (fun _ => false) email d0) sacc).events
      = sacc.events := by
  simp only [List.foldl]
  obtain ⟨a1, a2, a3⟩ := processSlot_fail now email d0 10 sacc
  obtain ⟨b1, b2, b3⟩ := processSlot_fail now email d0 19
    (processSlot now (fun _ => false) email d0 sacc 10)
  obtain ⟨c1, c2, c3⟩ := processSlot_fail now email d0 20
    (processSlot now (fun _ => false) email d0
      (processSlot now (fun _ => false) email d0 sacc 10) 19)
  rw [c2, b2, a2, c3, b3, a3]
  exact ⟨rfl, rfl⟩

lemma regStep_fail (email : String) (acc : TickAcc) :
    (regStep (fun _ => false) email acc).st.processed_emails
      = acc.st.processed_emails ∧
    (regStep (fun _ => false) email acc).st.reminder_sent
      = acc.st.reminder_sent ∧
    (regStep (fun _ => false) email acc).events = acc.events := by
  unfold regStep
  by_cases hmem : email ∈ acc.st.processed_emails
  · rw [if_pos hmem]
    exact ⟨rfl, rfl, rfl⟩
  · rw [if_neg hmem]
    simp only [send_email]
    rw [if_neg (by simp : ¬ ((false : Bool) = true))]
    exact ⟨rfl, rfl, rfl⟩

lemma remSlots_fail (now : ℕ) (email : String) (d0 : ℕ) (acc : TickAcc) :
    (remSlots now (fun _ => false) email d0 acc).st.processed_emails
      = acc.st.processed_emails ∧
    (remSlots now (fun _ => false) email d0 acc).st.reminder_sent
      = acc.st.reminder_sent ∧
    (remSlots now (fun _ => false) email d0 acc).events = acc.events := by
  unfold remSlots
  by_cases hd : dateOf now = d0
  · rw [if_pos hd]
    have hf := slotFold_fail now email d0
      { reminders := dictGet acc.st.reminder_sent email,
        rs := acc.st.reminder_sent, attempt := acc.attempt, events := acc.events }
    exact ⟨rfl, hf.1, hf.2⟩
  · rw [if_neg hd]
    exact ⟨rfl, rfl, rfl⟩

lemma remPhase_fail (now : ℕ) (email : String) (acc : TickAcc) :
    (remPhase now (fun _ => false) email acc).st.processed_emails
      = acc.st.processed_emails ∧
    (remPhase now (fun _ => false) email acc).st.reminder_sent
      = acc.st.reminder_sent ∧
    (remPhase now (fun _ => false) email acc).events = acc.events := by
  unfold remPhase
  cases hq : dictGet acc.st.workshop_tracking email with
  | nil => exact ⟨rfl, rfl, rfl⟩
  | cons d0 rest =>
    have ht := remTail_frame now email d0 rest
      (remSlots now (fun _ => false) email d0 acc)
    have hs := remSlots_fail now email d0 acc
    exact ⟨ht.1.trans hs.1, ht.2.1.trans hs.2.1, ht.2.2.1.trans hs.2.2⟩

lemma processRow_fail (now : ℕ) (acc : TickAcc) (row : List String) :
    (processRow now (fun _ => false) acc row).st.processed_emails
      = acc.st.processed_emails ∧
    (processRow now (fun _ => false) acc row).st.reminder_sent
      = acc.st.reminder_sent ∧
    (processRow now (fun _ => false) acc row).events = acc.events := by
  unfold processRow
  cases h1 : row.get? 1 with
  | none => exact ⟨rfl, rfl, rfl⟩
  | some n =>
    cases h2 : row.get? 2 with
    | none => exact ⟨rfl, rfl, rfl⟩
    | some e0 =>
      show ((if pyStrip e0 = "" ∨ pyUpper (pyStrip n) = "" then acc
        else remPhase now (fun _ => false) (pyStrip e0)
          (regStep (fun _ => false) (pyStrip e0)
            (assignStep now (pyStrip e0) acc))).st.processed_emails
          = acc.st.processed_emails) ∧
        ((if pyStrip e0 = "" ∨ pyUpper (pyStrip n) = "" then acc
        else remPhase now (fun _ => false) (pyStrip e0)
          (regStep (fun _ => false) (pyStrip e0)
            (assignStep now (pyStrip e0) acc))).st.reminder_sent
          = acc.st.reminder_sent) ∧
        ((if pyStrip e0 = "" ∨ pyUpper (pyStrip n) = "" then acc
        else remPhase now (fun _ => false) (pyStrip e0)
          (regStep (fun _ => false) (pyStrip e0)
            (assignStep now (pyStrip e0) acc))).events
          = acc.events)
      by_cases hblank : pyStrip e0 = "" ∨ pyUpper (pyStrip n) = ""
      · rw [if_pos hblank]
        exact ⟨rfl, rfl, rfl⟩
      · rw [if_neg hblank]
        have ha := assignStep_frame now (pyStrip e0) acc
        have hg := regStep_fail (pyStrip e0) (assignStep now (pyStrip e0) acc)
        have hr := remPhase_fail now (pyStrip e0)
          (regStep (fun _ => false) (pyStrip e0) (assignStep now (pyStrip e0) acc))
        exact ⟨hr.1.trans (hg.1.trans ha.1), hr.2.1.trans (hg.2.1.trans ha.2.1),
          hr.2.2.trans (hg.2.2.trans ha.2.2.1)⟩

lemma tick_fail (now : ℕ) (sheet : List (List String)) (s : EngineState) :
    (tick now sheet (fun _ => false) s).1.processed_emails = s.processed_emails ∧
    (tick now sheet (fun _ => false) s).1.reminder_sent = s.reminder_sent ∧
    (tick now sheet (fun _ => false) s).2 = [] := by
  have key : ∀ (acc : TickAcc) (row : List String),
      (acc.st.processed_emails = s.processed_emails ∧
       acc.st.reminder_sent = s.reminder_sent ∧ acc.events = ([] : List Event)) →
      ((processRow now (fun _ => false) acc row).st.processed_emails
          = s.processed_emails ∧
       (processRow now (fun _ => false) acc row).st.reminder_sent
          = s.reminder_sent ∧
       (processRow now (fun _ => false) acc row).events = ([] : List Event)) := by
    intro acc row hacc
    have hp := processRow_fail now acc row
    exact ⟨hp.1.trans hacc.1, hp.2.1.trans hacc.2.1, hp.2.2.trans hacc.2.2⟩
  exact foldl_preserve
    (fun acc : TickAcc => acc.st.processed_emails = s.processed_emails ∧
      acc.st.reminder_sent = s.reminder_sent ∧ acc.events = ([] : List Event))
    (processRow now (fun _ => false)) key (sheet.drop 1) _ ⟨rfl, rfl, rfl⟩

/-- C6 counterexample: `send_email` makes exactly one attempt — with a channel
that refuses the first attempt but would accept any retry it reports failure
after consuming a single attempt, whereas the bounded-retry policy the claim
describes (3 attempts, fixed delay) would succeed on the second attempt. -/
theorem spec_C6_cex :
    send_email (fun n => decide (0 < n)) 0 = (false, 1) ∧
    send_email_spec_retry (fun n => decide (0 < n)) 0 3 = true := by
  decide

/-- C6 amended: a failed send is attempted exactly once per decision — there
is no in-process retry; and when every attempt in a tick fails, the tick
records no successful sends and leaves `processed_emails` and
`reminder_sent` unchanged, so the notification stays eligible on a later
tick while its decision window lasts. -/
theorem spec_C6_amended (oracle : ℕ → Bool) (attempt now : ℕ)
    (sheet : List (List String)) (s : EngineState) :
    ( send_email oracle attempt).2 = attempt + 1 ∧
    (tick now sheet (fun _ => false) s).1.processed_emails = s.processed_emails ∧
    (tick now sheet (fun _ => false) s).1.reminder_sent = s.reminder_sent ∧
    (tick now sheet (fun _ => false) s).2 = [] :=
  ⟨rfl, tick_fail now sheet s⟩

/-! ### An empty personal queue stays empty -/

lemma cntRemAll_single_reg (e e1 : String) :
    cntRemAll e [(e1, SendKind.registration)] = 0 := by
  simp [cntRemAll, List.countP_cons]

lemma cntRemAll_single_rem_ne (e e1 : String) (d h : ℕ) (hne : e1 ≠ e) :
    cntRemAll e [(e1, SendKind.reminder d h)] = 0 := by
  simp [cntRemAll, List.countP_cons, hne]

lemma memKey_of_dictGet_cons {α : Type} (m : List (String × List α)) (k : String)
    (x : α) (l : List α) (h : dictGet m k = x :: l) : memKey m k = true := by
  induction m with
  | nil => simp [dictGet] at h
  | cons p rest ih =>
    simp only [dictGet] at h
    simp only [memKey, List.any_cons]
    by_cases hp : p.1 = k
    · simp [hp]
    · rw [if_neg hp] at h
      simp only [memKey] at ih
      simp [ih h]

lemma assignStep_of_memKey (now : ℕ) (email : String) (acc : TickAcc)
    (h : memKey acc.st.workshop_tracking email = true) :
    assignStep now email acc = acc := by
  unfold assignStep
  rw [if_pos h]

lemma assignStep_dict_other (now : ℕ) (e2 : String) (acc : TickAcc)
    (email : String) (hne : email ≠ e2) :
    dictGet (assignStep now e2 acc).st.workshop_tracking email
      = dictGet acc.st.workshop_tracking email ∧
    memKey (assignStep now e2 acc).st.workshop_tracking email
      = memKey acc.st.workshop_tracking email := by
  unfold assignStep
  by_cases hmem : memKey acc.st.workshop_tracking e2 = true
  · rw [if_pos hmem]
    exact ⟨rfl, rfl⟩
  · rw [if_neg hmem]
    exact ⟨dictGet_dictSet_ne _ _ _ _ hne, memKey_dictSet_ne _ _ _ _ hne⟩

lemma remPhase_of_nil (now : ℕ) (oracle : ℕ → Bool) (email : String)
    (acc : TickAcc) (h : dictGet acc.st.workshop_tracking email = []) :
    remPhase now oracle email acc = acc := by
  unfold remPhase
  rw [h]

lemma remPhase_of_cons (now : ℕ) (oracle : ℕ → Bool) (email : String)
    (acc : TickAcc) (d0 : ℕ) (rest : List ℕ)
    (h : dictGet acc.st.workshop_tracking email = d0 :: rest) :
    remPhase now oracle email acc
      = remTail now email d0 rest (remSlots now oracle email d0 acc) := by
  unfold remPhase
  rw [h]

lemma regStep_cntRemAll (oracle : ℕ → Bool) (e2 email : String) (acc : TickAcc)
    (h : cntRemAll email acc.events = 0) :
    cntRemAll email (regStep oracle e2 acc).events = 0 := by
  unfold regStep
  by_cases hmem : e2 ∈ acc.st.processed_emails
  · rw [if_pos hmem]
    exact h
  · rw [if_neg hmem]
    simp only [send_email]
    by_cases hok : oracle acc.attempt = true
    · rw [if_pos hok]
      show cntRemAll email (acc.events ++ [(e2, SendKind.registration)]) = 0
      rw [cntRemAll_append, cntRemAll_single_reg, h]
    · rw [if_neg hok]
      exact h

lemma processSlot_other (now : ℕ) (oracle : ℕ → Bool) (e2 : String) (d0 hour : ℕ)
    (email : String) (sacc : SlotAcc) (hne : e2 ≠ email)
    (h : cntRemAll email sacc.events = 0) :
    cntRemAll email (processSlot now oracle e2 d0 sacc hour).events = 0 := by
  unfold processSlot
  by_cases htol : is_within_tolerance now hour = true
  · rw [if_pos htol]
    by_cases hkey : (d0, hour) ∈ sacc.reminders
    · rw [if_pos hkey]
      exact h
    · rw [if_neg hkey]
      simp only [send_email]
      by_cases hok : oracle sacc.attempt = true
      · rw [if_pos hok]
        show cntRemAll email (sacc.events ++ [(e2, SendKind.reminder d0 hour)]) = 0
        rw [cntRemAll_append, cntRemAll_single_rem_ne _ _ _ _ hne, h]
      · rw [if_neg hok]
        exact h
  · rw [if_neg htol]
    exact h

lemma remSlots_other (now : ℕ) (oracle : ℕ → Bool) (e2 : String) (d0 : ℕ)
    (email : String) (acc : TickAcc) (hne : e2 ≠ email)
    (h : cntRemAll email acc.events = 0) :
    cntRemAll email (remSlots now oracle e2 d0 acc).events = 0 := by
  unfold remSlots
  by_cases hd : dateOf now = d0
  · rw [if_pos hd]
    simp only [List.foldl]
    apply processSlot_other now oracle e2 d0 20 email _ hne
    apply processSlot_other now oracle e2 d0 19 email _ hne
    apply processSlot_other now oracle e2 d0 10 email _ hne
    exact h
  · rw [if_neg hd]
    exact h

lemma remTail_dict_other (now : ℕ) (e2 : String) (d0 : ℕ) (rest : List ℕ)
    (acc : TickAcc) (email : String) (hne : email ≠ e2) :
    dictGet (remTail now e2 d0 rest acc).st.workshop_tracking email
      = dictGet acc.st.workshop_tracking email ∧
    memKey (remTail now e2 d0 rest acc).st.workshop_tracking email
      = memKey acc.st.workshop_tracking email := by
  unfold remTail
  by_cases hc : dateOf now = d0 ∧ 22 ≤ hourOf now
  · rw [if_pos hc]
    constructor
    · rw [dictGet_dictSet_ne _ _ _ _ hne]
      exact dictGet_dictSet_ne _ _ _ _ hne
    · rw [memKey_dictSet_ne _ _ _ _ hne]
      exact memKey_dictSet_ne _ _ _ _ hne
  · rw [if_neg hc]
    constructor
    · exact dictGet_dictSet_ne _ _ _ _ hne
    · exact memKey_dictSet_ne _ _ _ _ hne

lemma processRow_C10 (now : ℕ) (oracle : ℕ → Bool) (email : String)
    (acc : TickAcc) (row : List String)
    (h1 : memKey acc.st.workshop_tracking email = true)
    (h2 : dictGet acc.st.workshop_tracking email = [])
    (h3 : cntRemAll email acc.events = 0) :
    memKey (processRow now oracle acc row).st.workshop_tracking email = true ∧
    dictGet (processRow now oracle acc row).st.workshop_tracking email = [] ∧
    cntRemAll email (processRow now oracle acc row).events = 0 := by
  unfold processRow
  cases hr1 : row.get? 1 with
  | none => exact ⟨h1, h2, h3⟩
  | some n =>
    cases hr2 : row.get? 2 with
    | none => exact ⟨h1, h2, h3⟩
    | some e0 =>
      show memKey ((if pyStrip e0 = "" ∨ pyUpper (pyStrip n) = "" then acc
          else remPhase now oracle (pyStrip e0) (regStep oracle (pyStrip e0)
            (assignStep now (pyStrip e0) acc))).st.workshop_tracking) email
            = true ∧
        dictGet ((if pyStrip e0 = "" ∨ pyUpper (pyStrip n) = "" then acc
          else remPhase now oracle (pyStrip e0) (regStep oracle (pyStrip e0)
            (assignStep now (pyStrip e0) acc))).st.workshop_tracking) email
            = [] ∧
        cntRemAll email ((if pyStrip e0 = "" ∨ pyUpper (pyStrip n) = "" then acc
          else remPhase now oracle (pyStrip e0) (regStep oracle (pyStrip e0)
            (assignStep now (pyStrip e0) acc))).events) = 0
      by_cases hblank : pyStrip e0 = "" ∨ pyUpper (pyStrip n) = ""
      · rw [if_pos hblank]
        exact ⟨h1, h2, h3⟩
      · rw [if_neg hblank]
        by_cases he : pyStrip e0 = email
        · rw [he, assignStep_of_memKey now email acc h1]
          have hg := regStep_frame oracle email acc
          have hgc := regStep_cntRemAll oracle email email acc h3
          have hnil : dictGet (regStep oracle email acc).st.workshop_tracking
              email = [] := by
            rw [hg.1]
            exact h2
          rw [remPhase_of_nil now oracle email _ hnil]
          refine ⟨?_, hnil, hgc⟩
          rw [hg.1]
          exact h1
        · have hne' : email ≠ pyStrip e0 := fun hc => he hc.symm
          have ha := assignStep_dict_other now (pyStrip e0) acc email hne'
          have haf := assignStep_frame now (pyStrip e0) acc
          have hg := regStep_frame oracle (pyStrip e0)
            (assignStep now (pyStrip e0) acc)
          have hgc := regStep_cntRemAll oracle (pyStrip e0) email
            (assignStep now (pyStrip e0) acc) (by rw [haf.2.2.1]; exact h3)
          have htr : dictGet (regStep oracle (pyStrip e0)
              (assignStep now (pyStrip e0) acc)).st.workshop_tracking email
              = [] := by
            rw [hg.1, ha.1]
            exact h2
          have hmk : memKey (regStep oracle (pyStrip e0)
              (assignStep now (pyStrip e0) acc)).st.workshop_tracking email
              = true := by
            rw [hg.1, ha.2]
            exact h1
          cases hq : dictGet (regStep oracle (pyStrip e0)
              (assignStep now (pyStrip e0) acc)).st.workshop_tracking
              (pyStrip e0) with
          | nil =>
            rw [remPhase_of_nil now oracle (pyStrip e0) _ hq]
            exact ⟨hmk, htr, hgc⟩
          | cons d0 rest2 =>
            rw [remPhase_of_cons now oracle (pyStrip e0) _ d0 rest2 hq]
            have hs := remSlots_tracking now oracle (pyStrip e0) d0
              (regStep oracle (pyStrip e0) (assignStep now (pyStrip e0) acc))
            have hso := remSlots_other now oracle (pyStrip e0) d0 email
              (regStep oracle (pyStrip e0) (assignStep now (pyStrip e0) acc))
              he hgc
            have htd := remTail_dict_other now (pyStrip e0) d0 rest2
              (remSlots now oracle (pyStrip e0) d0
                (regStep oracle (pyStrip e0) (assignStep now (pyStrip e0) acc)))
              email hne'
            have htf := remTail_frame now (pyStrip e0) d0 rest2
              (remSlots now oracle (pyStrip e0) d0
                (regStep oracle (pyStrip e0) (assignStep now (pyStrip e0) acc)))
            refine ⟨?_, ?_, ?_⟩
            · rw [htd.2, hs.1]
              exact hmk
            · rw [htd.1, hs.1]
              exact htr
            · rw [htf.2.2.1]
              exact hso

lemma tick_C10 (now : ℕ) (sheet : List (List String)) (oracle : ℕ → Bool)
    (s : EngineState) (email : String)
    (h1 : memKey s.workshop_tracking email = true)
    (h2 : dictGet s.workshop_tracking email = []) :
    memKey (tick now sheet oracle s).1.workshop_tracking email = true ∧
    dictGet (tick now sheet oracle s).1.workshop_tracking email = [] ∧
    cntRemAll email (tick now sheet oracle s).2 = 0 := by
  have h0 : memKey (cleanup_old_workshops (dateOf now) s.workshop_tracking)
      email = true := by
    rw [memKey_cleanup]
    exact h1
  have h0b : dictGet (cleanup_old_workshops (dateOf now) s.workshop_tracking)
      email = [] := by
    rw [dictGet_cleanup, h2]
    rfl
  exact foldl_preserve
    (fun acc : TickAcc => memKey acc.st.workshop_tracking email = true ∧
      dictGet acc.st.workshop_tracking email = [] ∧
      cntRemAll email acc.events = 0)
    (processRow now oracle)
    (fun a b hP => processRow_C10 now oracle email a b hP.1 hP.2.1 hP.2.2)
    (sheet.drop 1) _ ⟨h0, h0b, rfl⟩

/-- C10: a recipient already in the tracking map whose personal queue is
empty gets no reminders in any tick, is never assigned new occurrence dates
(initial assignment happens only for untracked addresses, and the top-up
loop runs only on a non-empty queue), and the queue therefore stays empty
across any number of ticks. -/
theorem spec_C10 (s : EngineState) (ts : List TickInput) (email : String)
    (h1 : memKey s.workshop_tracking email = true)
    (h2 : dictGet s.workshop_tracking email = []) :
    memKey (runTrace s ts).1.workshop_tracking email = true ∧
    dictGet (runTrace s ts).1.workshop_tracking email = [] ∧
    cntRemAll email (runTrace s ts).2 = 0 := by
  induction ts generalizing s with
  | nil => exact ⟨h1, h2, rfl⟩
  | cons t ts ih =>
    have ht := tick_C10 t.now t.sheet t.oracle s email h1 h2
    have hr := ih (tick t.now t.sheet t.oracle s).1 ht.1 ht.2.1
    refine ⟨hr.1, hr.2.1, ?_⟩
    rw [show (runTrace s (t :: ts)).2 = (tick t.now t.sheet t.oracle s).2
      ++ (runTrace (tick t.now t.sheet t.oracle s).1 ts).2 from rfl,
      cntRemAll_append, ht.2.2, hr.2.2]

/-- Witness for C10: a tracked address with an empty queue, over one tick. -/
theorem spec_C10_witness :
    memKey (runTrace ⟨[], [], [("z@x", [])]⟩
      [⟨6360, [[], ["", "n", "z@x"]], fun _ => true⟩]).1.workshop_tracking
      "z@x" = true ∧
    dictGet (runTrace ⟨[], [], [("z@x", [])]⟩
      [⟨6360, [[], ["", "n", "z@x"]], fun _ => true⟩]).1.workshop_tracking
      "z@x" = [] ∧
    cntRemAll "z@x" (runTrace ⟨[], [], [("z@x", [])]⟩
      [⟨6360, [[], ["", "n", "z@x"]], fun _ => true⟩]).2 = 0 :=
  spec_C10 ⟨[], [], [("z@x", [])]⟩
    [⟨6360, [[], ["", "n", "z@x"]], fun _ => true⟩] "z@x" (by decide) (by decide)

/-! ### Reminders do not consult the registered state -/

lemma tolerance_10_only (now : ℕ) (h : is_within_tolerance now 10 = true) :
    is_within_tolerance now 19 = false ∧ is_within_tolerance now 20 = false ∧
    ¬ (22 ≤ hourOf now) := by
  unfold is_within_tolerance at *
  rw [decide_eq_true_eq] at h
  refine ⟨?_, ?_, ?_⟩
  · rw [decide_eq_false_iff_not]
    omega
  · rw [decide_eq_false_iff_not]
    omega
  · unfold hourOf
    omega

lemma processSlot_send (now : ℕ) (oracle : ℕ → Bool) (email : String)
    (d0 hour : ℕ) (sacc : SlotAcc)
    (htol : is_within_tolerance now hour = true)
    (hkey : (d0, hour) ∉ sacc.reminders)
    (hok : oracle sacc.attempt = true) :
    processSlot now oracle email d0 sacc hour
      = { reminders := sacc.reminders ++ [(d0, hour)],
          rs := dictSet sacc.rs email (sacc.reminders ++ [(d0, hour)]),
          attempt := sacc.attempt + 1,
          events := sacc.events ++ [(email, SendKind.reminder d0 hour)] } := by
  unfold processSlot
  rw [if_pos htol, if_neg hkey]
  simp only [send_email]
  rw [if_pos hok]

lemma processSlot_skip (now : ℕ) (oracle : ℕ → Bool) (email : String)
    (d0 hour : ℕ) (sacc : SlotAcc)
    (htol : is_within_tolerance now hour = false) :
    processSlot now oracle email d0 sacc hour = sacc := by
  unfold processSlot
  rw [if_neg (by simp [htol] : ¬ (is_within_tolerance now hour = true))]

lemma processRow_C5 (now : ℕ) (oracle : ℕ → Bool) (acc : TickAcc)
    (c0 n e0 : String) (date : ℕ) (rest : List ℕ)
    (hn : pyUpper (pyStrip n) ≠ "") (he : pyStrip e0 ≠ "")
    (hreg : pyStrip e0 ∉ acc.st.processed_emails)
    (htrack : dictGet acc.st.workshop_tracking (pyStrip e0) = date :: rest)
    (hdate : dateOf now = date)
    (htol : is_within_tolerance now 10 = true)
    (hkey : (date, 10) ∉ dictGet acc.st.reminder_sent (pyStrip e0))
    (ho0 : oracle acc.attempt = false) (ho1 : oracle (acc.attempt + 1) = true) :
    (processRow now oracle acc [c0, n, e0]).events
      = acc.events ++ [(pyStrip e0, SendKind.reminder date 10)] ∧
    (processRow now oracle acc [c0, n, e0]).st.processed_emails
      = acc.st.processed_emails := by
  have htolf := tolerance_10_only now htol
  unfold processRow
  show ((if pyStrip e0 = "" ∨ pyUpper (pyStrip n) = "" then acc
      else remPhase now oracle (pyStrip e0) (regStep oracle (pyStrip e0)
        (assignStep now (pyStrip e0) acc))).events
      = acc.events ++ [(pyStrip e0, SendKind.reminder date 10)]) ∧
    ((if pyStrip e0 = "" ∨ pyUpper (pyStrip n) = "" then acc
      else remPhase now oracle (pyStrip e0) (regStep oracle (pyStrip e0)
        (assignStep now (pyStrip e0) acc))).st.processed_emails
      = acc.st.processed_emails)
  rw [if_neg (not_or.2 ⟨he, hn⟩)]
  have hmem : memKey acc.st.workshop_tracking (pyStrip e0) = true :=
    memKey_of_dictGet_cons _ _ _ _ htrack
  rw [assignStep_of_memKey now (pyStrip e0) acc hmem]
  have hregeq : regStep oracle (pyStrip e0) acc
      = { acc with attempt := acc.attempt + 1 } := by
    unfold regStep
    rw [if_neg hreg]
    simp only [send_email]
    rw [if_neg (by simp [ho0] : ¬ (oracle acc.attempt = true))]
  rw [hregeq]
  have htrack2 : dictGet ({ acc with attempt := acc.attempt + 1 }
      : TickAcc).st.workshop_tracking (pyStrip e0) = date :: rest := htrack
  rw [remPhase_of_cons now oracle (pyStrip e0) _ date rest htrack2]
  have hrs : remSlots now oracle (pyStrip e0) date
      { acc with attempt := acc.attempt + 1 }
      = { st := { acc.st with reminder_sent := dictSet acc.st.reminder_sent (pyStrip e0) (dictGet acc.st.reminder_sent (pyStrip e0) ++ [(date, 10)]) },
          attempt := acc.attempt + 2,
          events := acc.events ++ [(pyStrip e0, SendKind.reminder date 10)] } := by
    unfold remSlots
    rw [if_pos hdate]
    simp only [List.foldl]
    rw [processSlot_send now oracle (pyStrip e0) date 10 _ htol hkey ho1]
    rw [processSlot_skip now oracle (pyStrip e0) date 19 _ htolf.1]
    rw [processSlot_skip now oracle (pyStrip e0) date 20 _ htolf.2.1]
  rw [hrs]
  constructor
  · rw [(remTail_frame now (pyStrip e0) date rest _).2.2.1]
  · rw [(remTail_frame now (pyStrip e0) date rest _).1]

/-- C5 counterexample: recipient `b@x` is unregistered, the tick's
registration send fails, and the very same tick still records a reminder
send for `b@x` — the reminder decision never consults the registered state,
contradicting the claimed state machine. -/
theorem spec_C5_cex :
    "b@x" ∉ (⟨[], [], [("b@x", [4, 6, 8])]⟩ : EngineState).processed_emails ∧
    (tick 6360 [[], ["", "n", "b@x"]] (fun k => decide (0 < k))
      ⟨[], [], [("b@x", [4, 6, 8])]⟩).2 = [("b@x", SendKind.reminder 4 10)] ∧
    "b@x" ∉ (tick 6360 [[], ["", "n", "b@x"]] (fun k => decide (0 < k))
      ⟨[], [], [("b@x", [4, 6, 8])]⟩).1.processed_emails := by
  decide

/-- C5 amended: the reminder decision is independent of the registered
state: whenever the reminder guard passes (the recipient's first queued
date is today, the instant is inside the 10:00 tolerance window, the key is
not yet recorded) and the channel accepts the reminder attempt, the
reminder is sent even though the registration send of the same tick failed
and the recipient remains unregistered. -/
theorem spec_C5_amended (s : EngineState) (now : ℕ) (c0 n e0 : String)
    (date : ℕ) (rest : List ℕ) (oracle : ℕ → Bool)
    (hn : pyUpper (pyStrip n) ≠ "") (he : pyStrip e0 ≠ "")
    (hreg : pyStrip e0 ∉ s.processed_emails)
    (htrack : dictGet s.workshop_tracking (pyStrip e0) = date :: rest)
    (hdate : dateOf now = date)
    (htol : is_within_tolerance now 10 = true)
    (hkey : (date, 10) ∉ dictGet s.reminder_sent (pyStrip e0))
    (ho0 : oracle 0 = false) (ho1 : oracle 1 = true) :
    (pyStrip e0, SendKind.reminder date 10)
      ∈ (tick now [[], [c0, n, e0]] oracle s).2 ∧
    pyStrip e0 ∉ (tick now [[], [c0, n, e0]] oracle s).1.processed_emails := by
  have hcl : dictGet (cleanup_old_workshops (dateOf now) s.workshop_tracking)
      (pyStrip e0) = date :: rest.filter (fun d => dateOf now ≤ d) := by
    rw [dictGet_cleanup, htrack]
    simp [List.filter_cons, hdate]
  have hP := processRow_C5 now oracle
    ⟨⟨s.processed_emails, s.reminder_sent,
      cleanup_old_workshops (dateOf now) s.workshop_tracking⟩, 0, []⟩
    c0 n e0 date (rest.filter (fun d => dateOf now ≤ d))
    hn he hreg hcl hdate htol hkey ho0 ho1
  constructor
  · show (pyStrip e0, SendKind.reminder date 10)
      ∈ (processRow now oracle
        ⟨⟨s.processed_emails, s.reminder_sent,
          cleanup_old_workshops (dateOf now) s.workshop_tracking⟩, 0, []⟩
        [c0, n, e0]).events
    rw [hP.1]
    simp
  · show pyStrip e0 ∉ (processRow now oracle
      ⟨⟨s.processed_emails, s.reminder_sent,
        cleanup_old_workshops (dateOf now) s.workshop_tracking⟩, 0, []⟩
      [c0, n, e0]).st.processed_emails
    rw [hP.2]
    exact hreg

/-- Witness for the amended C5 at a concrete unregistered recipient whose
registration attempt fails while the reminder attempt succeeds. -/
theorem spec_C5_witness :
    ("c@x", SendKind.reminder 4 10)
      ∈ (tick 6360 [[], ["", "n", "c@x"]] (fun k => decide (0 < k))
        ⟨[], [], [("c@x", [4, 6, 8])]⟩).2 ∧
    "c@x" ∉ (tick 6360 [[], ["", "n", "c@x"]] (fun k => decide (0 < k))
      ⟨[], [], [("c@x", [4, 6, 8])]⟩).1.processed_emails :=
  spec_C5_amended ⟨[], [], [("c@x", [4, 6, 8])]⟩ 6360 "" "n" "c@x" 4 [6, 8]
    (fun k => decide (0 < k)) (by decide) (by decide) (by decide) (by decide)
    (by decide) (by decide) (by decide) (by decide) (by decide)

end Workshop
